import Mathlib

/-!
Verification of the agentregistry Registry Core against its specification.

This file shallowly embeds the relevant Go functions of the repository:

* the Kubernetes name sanitizer and resource naming
  (internal/runtime/translation/kagent/kagent_translator.go),
* the deployment-configuration key partitioning (cmd/start.go),
* the Kubernetes reconcile backend (runtime package, controller-runtime
  variant with server-side apply),
* the MCP-server resolution used for agent config generation
  (createResolvedMCPServerConfigs),
* the catalogue service publish / update transactions (service package),
* the importer's paginated registry fetch (registry client package),
* the README seed encode / decode (seed package).

Machine integers are modelled as Nat with explicit reductions where overflow
matters; strings are Lean Strings (char-level, which coincides with Go's
byte-level operations on the ASCII data these functions handle); Go maps are
modelled as association lists where iteration order is irrelevant to the
properties proved.  Store operations of the Postgres database layer are not
part of the provided sources; those are modelled from the specification and
marked as such in their doc comments.
-/

/-! ## Kubernetes name sanitation (kagent_translator.go) -/

/-- Character class kept verbatim by sanitizeK8sName: lowercase ASCII letters
and digits.  Note that the dash is NOT in this class: the Go code only keeps
runes satisfying (r >= 'a' && r <= 'z') || (r >= '0' && r <= '9'). -/
def keepChar (c : Char) : Bool :=
  ('a' ≤ c && c ≤ 'z') || ('0' ≤ c && c ≤ '9')

/-- The rune loop of sanitizeK8sName: kept characters are emitted and reset
the prevDash flag; any other character emits a single dash unless the
previous emission was already a dash. -/
def sanitizeRuns : Bool → List Char → List Char
  | _, [] => []
  | prevDash, c :: rest =>
    if keepChar c then c :: sanitizeRuns false rest
    else if prevDash then sanitizeRuns true rest
    else '-' :: sanitizeRuns true rest

/-- strings.Trim(s, "-"): drop leading and trailing dashes. -/
def trimDashes (l : List Char) : List Char :=
  ((l.dropWhile (· == '-')).reverse.dropWhile (· == '-')).reverse

/-- sanitizeK8sName from kagent_translator.go: lower-case, collapse every run
of characters outside [a-z0-9] (dashes included) to a single dash, trim
dashes, and fall back to "agent" when the result is empty.  Char.toLower
matches Go's strings.ToLower on the ASCII range; outside ASCII both sides
map the character to a dash. -/
def sanitizeK8sName (value : String) : String :=
  let lowered := value.toList.map Char.toLower
  let trimmed := trimDashes (sanitizeRuns false lowered)
  if trimmed.isEmpty then "agent" else String.mk trimmed

/-- AgentResourceName from kagent_translator.go: the version is appended to
the raw name first and the combined string is then sanitized. -/
def AgentResourceName (name version : String) : String :=
  if version ≠ "" then sanitizeK8sName (name ++ "-" ++ version)
  else sanitizeK8sName name

/-- Character class of the claim text: [a-z0-9-], dash included. -/
def claimKeepChar (c : Char) : Bool :=
  keepChar c || c == '-'

/-- Stated claim procedure (from the claim's words, for comparison only):
replace every maximal run of characters outside [a-z0-9-] with a single
dash; dashes themselves are kept verbatim. -/
def claimCollapse : Bool → List Char → List Char
  | _, [] => []
  | inRun, c :: rest =>
    if claimKeepChar c then c :: claimCollapse false rest
    else if inRun then claimCollapse true rest
    else '-' :: claimCollapse true rest

/-- Stated claim procedure (from the claim's words, for comparison only):
lower-case, collapse runs outside [a-z0-9-], trim dashes, append "-"++version
when the version is non-empty, fall back to "agent" if empty. -/
def claimResourceName (name version : String) : String :=
  let lowered := name.toList.map Char.toLower
  let sanitized := String.mk (trimDashes (claimCollapse false lowered))
  let result := if version ≠ "" then sanitized ++ "-" ++ version else sanitized
  if result = "" then "agent" else result

/-- Replace each character outside [a-z0-9] by a dash (pointwise). -/
def dashNormalize (c : Char) : Char :=
  if keepChar c then c else '-'

/-- Collapse every run of consecutive dashes to a single dash. -/
def squashDashes : List Char → List Char
  | [] => []
  | [c] => [c]
  | c1 :: c2 :: rest =>
    if c1 == '-' && c2 == '-' then squashDashes (c2 :: rest)
    else c1 :: squashDashes (c2 :: rest)

/-! ## Deployment-config key partitioning (cmd/start.go, startServers) -/

/-- The three buckets the startServers loop sorts configuration entries
into. -/
structure ConfigPartition where
  envValues : List (String × String)
  argValues : List (String × String)
  headerValues : List (String × String)
deriving DecidableEq, Repr

/-- String take via the underlying character list (Go slices bytes; on the
ASCII-compatible prefixes compared here the two coincide). -/
def strTake (s : String) (n : Nat) : String := String.mk (s.toList.take n)

/-- String drop via the underlying character list. -/
def strDrop (s : String) (n : Nat) : String := String.mk (s.toList.drop n)

/-- The config classification loop of startServers: keys strictly longer
than "HEADER_" that start with it become headers (prefix stripped), keys
strictly longer than "ARG_" that start with it become args (prefix
stripped), everything else is an environment variable. -/
def partitionConfig : List (String × String) → ConfigPartition
  | [] => ⟨[], [], []⟩
  | (k, v) :: rest =>
    let p := partitionConfig rest
    if k.toList.length > 7 && strTake k 7 == "HEADER_" then
      { p with headerValues := (strDrop k 7, v) :: p.headerValues }
    else if k.toList.length > 4 && strTake k 4 == "ARG_" then
      { p with argValues := (strDrop k 4, v) :: p.argValues }
    else
      { p with envValues := (k, v) :: p.envValues }

/-- Boolean prefix test on character lists. -/
def beginsWith : List Char → List Char → Bool
  | [], _ => true
  | _ :: _, [] => false
  | p :: ps, c :: cs => p == c && beginsWith ps cs

/-! ## Kubernetes reconcile backend (runtime package) -/

/-- The identity of a Kubernetes object as far as the reconcile loop is
concerned: its CRD kind, its resource name and its namespace. -/
structure K8sObject where
  kind : String
  name : String
  ns : String
deriving DecidableEq, Repr

/-- The runtime config the kagent translator hands to the Kubernetes
backend. -/
structure KubernetesRuntimeConfig where
  agents : List K8sObject
  remoteMCPServers : List K8sObject
  mcpServers : List K8sObject
  configMaps : List K8sObject
deriving DecidableEq, Repr

/-- Operations the backend can issue against the cluster.  applySSA is a
server-side apply carrying the field-manager identity and the
force-ownership flag; delete is issued only by the explicit
DeleteKubernetes* helpers, never by the reconcile itself. -/
inductive K8sAction where
  | applySSA (obj : K8sObject) (fieldOwner : String) (force : Bool)
  | delete (obj : K8sObject)
deriving DecidableEq, Repr

/-- The fieldManager constant of the runtime package. -/
def fieldManager : String := "agentregistry"

/-- DefaultNamespace from the kagent package. -/
def DefaultNamespace : String := "default"

/-- Namespace defaulting performed before each apply. -/
def defaultNs (o : K8sObject) : K8sObject :=
  if o.ns = "" then { o with ns := DefaultNamespace } else o

/-- applyResource: c.Patch(ctx, obj, client.Apply,
client.FieldOwner(fieldManager), client.ForceOwnership). -/
def applyResource (o : K8sObject) : K8sAction :=
  .applySSA o fieldManager true

/-- Result of one ensureKubernetesRuntime call: whether a Kubernetes client
was created, and the ordered trace of cluster operations issued. -/
structure ReconcileResult where
  clientCreated : Bool
  actions : List K8sAction
deriving DecidableEq, Repr

/-- ensureKubernetesRuntime: short-circuits (no client, no operations) when
the config is nil or its agents, remote MCP servers and MCP servers are all
empty; otherwise applies ConfigMaps, then Agents, then RemoteMCPServers,
then MCPServers, each after namespace defaulting.  Per-apply failures abort
the remainder but issue no compensating operations; the trace records the
operations attempted in order. -/
def ensureKubernetesRuntime (cfg : Option KubernetesRuntimeConfig) : ReconcileResult :=
  match cfg with
  | none => ⟨false, []⟩
  | some c =>
    if c.agents.length = 0 ∧ c.remoteMCPServers.length = 0 ∧ c.mcpServers.length = 0 then
      ⟨false, []⟩
    else
      ⟨true,
        c.configMaps.map (fun o => applyResource (defaultNs o)) ++
        c.agents.map (fun o => applyResource (defaultNs o)) ++
        c.remoteMCPServers.map (fun o => applyResource (defaultNs o)) ++
        c.mcpServers.map (fun o => applyResource (defaultNs o))⟩

/-- DeleteKubernetesAgent: the explicit, caller-invoked deletion path.  It
is the only source of delete operations in the runtime package. -/
def DeleteKubernetesAgent (name version ns : String) : List K8sAction :=
  let n := if ns = "" then DefaultNamespace else ns
  [.delete ⟨"Agent", AgentResourceName name version, n⟩]

/-! ## MCP-server resolution for agent configs (createResolvedMCPServerConfigs) -/

/-- One declared remote of a registry server descriptor. -/
structure RemoteEntry where
  url : String
  headers : List (String × String)
deriving DecidableEq, Repr

/-- The slice of a registry server descriptor this resolution step reads:
its name, its remotes and its package identifiers. -/
structure RegistryServerJSON where
  name : String
  remotes : List RemoteEntry
  packages : List String
deriving DecidableEq, Repr

/-- A run request pairing a descriptor with the deployment preference and
the HEADER_-derived config values. -/
structure MCPServerRunRequest where
  registryServer : RegistryServerJSON
  preferRemote : Bool
  headerValues : List (String × String)
deriving DecidableEq, Repr

/-- The resolved connection config handed to agents (api package).  ctype is
"remote" or "command". -/
structure ResolvedMCPServerConfig where
  name : String
  ctype : String
  url : String
  headers : List (String × String)
deriving DecidableEq, Repr

/-- Right-biased merge modelling the Go map built from the remote's declared
headers and then overlaid (maps.Copy) with the request's header values. -/
def overlayHeaders (base extra : List (String × String)) : List (String × String) :=
  base.filter (fun p => extra.all (fun q => q.1 ≠ p.1)) ++ extra

/-- Header computation of the remote branch: only performed when either side
is non-empty, and only attached when the merged map is non-empty. -/
def mergeRemoteHeaders (remote : RemoteEntry) (headerValues : List (String × String)) :
    List (String × String) :=
  if remote.headers.length > 0 || headerValues.length > 0 then
    overlayHeaders remote.headers headerValues
  else []

/-- Per-request body of the createResolvedMCPServerConfigs loop.  gen stands
for registry.GenerateInternalName (defined outside the provided sources and
irrelevant to the selection rule).  A server with neither remotes nor
packages is skipped; the remote branch is taken when remotes exist and
(preferRemote or no packages); otherwise the command branch. -/
def resolveMCPServerConfig (gen : String → String) (req : MCPServerRunRequest) :
    Option ResolvedMCPServerConfig :=
  let server := req.registryServer
  if server.remotes.isEmpty && server.packages.isEmpty then none
  else
    match server.remotes, req.preferRemote, server.packages with
    | r :: _, true, _ =>
      some ⟨gen server.name, "remote", r.url, mergeRemoteHeaders r req.headerValues⟩
    | r :: _, _, [] =>
      some ⟨gen server.name, "remote", r.url, mergeRemoteHeaders r req.headerValues⟩
    | _, _, _ =>
      some ⟨gen server.name, "command", "", []⟩

/-- createResolvedMCPServerConfigs: the loop over the agent's resolved
server run requests.  pythonServersFromServerRunRequests in the kagent
translator applies the same selection rule. -/
def createResolvedMCPServerConfigs (gen : String → String)
    (reqs : List MCPServerRunRequest) : List ResolvedMCPServerConfig :=
  reqs.filterMap (resolveMCPServerConfig gen)

/-- The artifact choice described by the claim text. -/
inductive ClaimChoice where
  | remote (r : RemoteEntry)
  | pkg (p : String)
deriving DecidableEq, Repr

/-- Stated claim procedure (from the claim's words, for comparison only): if
preferRemote and at least one remote, the first remote; otherwise if at
least one package, the first package; otherwise resolution fails (none). -/
def claimResolve (req : MCPServerRunRequest) : Option ClaimChoice :=
  match req.preferRemote, req.registryServer.remotes with
  | true, r :: _ => some (.remote r)
  | _, _ =>
    match req.registryServer.packages with
    | p :: _ => some (.pkg p)
    | [] => none

/-! ## Catalogue service (service package)

The service transactions createServerInTransaction, updateServerInTransaction
and validateUpdateRequest are embedded from the provided sources; the skill
and agent transactions share the exact same shape per kind.  The Postgres
store operations they call (implementations of database.Database) are not in
the provided sources and are modelled from the specification (section 4.1);
each carries a doc comment saying so.  The state is the table of one kind:
kinds live in separate tables, so one RegState models one kind's rows. -/

/-- The descriptor fields this logic reads: name, version, declared remote
URLs and package identifiers. -/
structure ServerJSON where
  name : String
  version : String
  remotes : List String
  packages : List String
deriving DecidableEq, Repr

/-- The registry-extension metadata attached on publish. -/
structure RegistryMeta where
  status : String
  publishedAt : Nat
  isLatest : Bool
deriving DecidableEq, Repr

/-- One stored row: the key columns, the descriptor value, and the official
metadata (relational schema of section 6: (name, version) primary key plus a
JSON value column). -/
structure StoredServer where
  name : String
  version : String
  server : ServerJSON
  meta : RegistryMeta
deriving DecidableEq, Repr

/-- The table of one artifact kind. -/
abbrev RegState := List StoredServer

/-- The stable error taxonomy of the service layer. -/
inductive RegistryError where
  | validationFailed
  | duplicateRemoteURL (url : String) (otherName : String)
  | maxVersionsReached
  | invalidVersion
  | notFound
deriving DecidableEq, Repr

/-- maxServerVersionsPerServer from the service package. -/
def maxServerVersionsPerServer : Nat := 10000

/-- Modelled from the spec: CountVersions(kind, name) counts the stored
versions of one name (database implementation absent from the sources). -/
def countServerVersions (st : RegState) (name : String) : Nat :=
  (st.filter (fun r => r.name == name)).length

/-- Modelled from the spec: VersionExists(kind, name, version) (database
implementation absent from the sources). -/
def checkVersionExists (st : RegState) (name version : String) : Bool :=
  st.any (fun r => r.name == name && r.version == version)

/-- Modelled from the spec: GetCurrentLatest(kind, name) returns the row of
that name carrying isLatest (database implementation absent from the
sources). -/
def getCurrentLatestVersion (st : RegState) (name : String) : Option StoredServer :=
  st.find? (fun r => r.name == name && r.meta.isLatest)

/-- Modelled from the spec: UnmarkLatest(kind, name) clears isLatest on every
row of that name (database implementation absent from the sources). -/
def unmarkAsLatest (st : RegState) (name : String) : RegState :=
  st.map (fun r =>
    if r.name == name then { r with meta := { r.meta with isLatest := false } } else r)

/-- Modelled from the spec: ListVersions with a remoteURL equality filter
returns the stored versions whose descriptor declares that URL (database
implementation absent from the sources; pagination is not modelled). -/
def serversWithRemoteURL (st : RegState) (url : String) : List StoredServer :=
  st.filter (fun r => r.server.remotes.contains url)

/-- Modelled from the spec: Get(kind, name, version) point lookup (database
implementation absent from the sources). -/
def getServerByNameAndVersion (st : RegState) (name version : String) :
    Option StoredServer :=
  st.find? (fun r => r.name == name && r.version == version)

/-- Modelled from the spec: UpdateVersion(kind, name, version, descriptor)
replaces the descriptor value of the keyed row (database implementation
absent from the sources). -/
def dbUpdateServer (st : RegState) (name version : String) (req : ServerJSON) : RegState :=
  st.map (fun r =>
    if r.name == name && r.version == version then { r with server := req } else r)

/-- Modelled from the spec: SetStatus(kind, name, version, status) (database
implementation absent from the sources). -/
def setServerStatus (st : RegState) (name version status : String) : RegState :=
  st.map (fun r =>
    if r.name == name && r.version == version then
      { r with meta := { r.meta with status := status } }
    else r)

/-- validateNoDuplicateRemoteURLs: for each remote URL declared by the
request, list the stored versions declaring it and fail on the first one
whose descriptor name differs from the request's name. -/
def findDuplicateRemoteURL (st : RegState) (reqName : String) :
    List String → Option RegistryError
  | [] => none
  | url :: rest =>
    match (serversWithRemoteURL st url).find? (fun r => r.server.name != reqName) with
    | some r => some (.duplicateRemoteURL url r.server.name)
    | none => findDuplicateRemoteURL st reqName rest

/-- createServerInTransaction from the service package.  compare stands for
CompareVersions (defined outside the provided sources), validateReq for
validators.ValidatePublishRequest (likewise); now is the publish time.  The
advisory lock serialises these transactions, so a sequence of calls models
any schedule of successful publishes.  Returns the new table and the created
row. -/
def createServerInTransaction
    (compare : String → String → Nat → Nat → Int)
    (validateReq : ServerJSON → Bool)
    (st : RegState) (req : ServerJSON) (now : Nat) :
    Except RegistryError (RegState × StoredServer) :=
  if validateReq req = false then .error .validationFailed
  else
    match findDuplicateRemoteURL st req.name req.remotes with
    | some e => .error e
    | none =>
      if countServerVersions st req.name ≥ maxServerVersionsPerServer then
        .error .maxVersionsReached
      else if checkVersionExists st req.name req.version then
        .error .invalidVersion
      else
        let currentLatest := getCurrentLatestVersion st req.name
        let isNewLatest :=
          match currentLatest with
          | none => true
          | some cur => decide (compare req.version cur.version now cur.meta.publishedAt > 0)
        let st1 :=
          match currentLatest with
          | some _ => if isNewLatest then unmarkAsLatest st req.name else st
          | none => st
        let row : StoredServer := ⟨req.name, req.version, req, ⟨"active", now, isNewLatest⟩⟩
        .ok (st1 ++ [row], row)

/-- Number of rows of one name flagged isLatest. -/
def latestCount (st : RegState) (name : String) : Nat :=
  (st.filter (fun r => r.name == name && r.meta.isLatest)).length

/-- Invariant I1: at most one version per name carries isLatest. -/
def AtMostOneLatest (st : RegState) : Prop :=
  ∀ name, latestCount st name ≤ 1

/-- A sequence of Publish calls starting from the empty table; failed
publishes leave the table unchanged. -/
def runPublishes (compare : String → String → Nat → Nat → Int)
    (validateReq : ServerJSON → Bool) (ops : List (ServerJSON × Nat)) : RegState :=
  ops.foldl (fun st op =>
    match createServerInTransaction compare validateReq st op.1 op.2 with
    | .ok (st', _) => st'
    | .error _ => st) []

/-- Outcome of one update transaction: the resulting table or error, and
whether structural / registry validation were performed. -/
structure UpdateOutcome where
  result : Except RegistryError RegState
  structuralRan : Bool
  registryRan : Bool
deriving Repr

/-- validateUpdateRequest from the service package: structural validation
(validators.ValidateServerJSON, abstracted as structuralOK) always runs
first; registry validation of the packages (validators.ValidatePackage,
abstracted as packageOK) runs only when not skipped and enabled by
configuration.  Returns the error, whether structural validation ran and
whether registry validation ran. -/
def validateUpdateRequest (cfgEnable : Bool)
    (structuralOK : ServerJSON → Bool) (packageOK : String → Bool)
    (req : ServerJSON) (skipRegistryValidation : Bool) :
    Option RegistryError × Bool × Bool :=
  if structuralOK req = false then (some .validationFailed, true, false)
  else if skipRegistryValidation || !cfgEnable then (none, true, false)
  else if req.packages.any (fun p => !packageOK p) then (some .validationFailed, true, true)
  else (none, true, true)

/-- updateServerInTransaction from the service package: fetch the current
row, skip registry validation when it is deleted or being deleted, validate,
re-check duplicate remote URLs, apply the descriptor update and then the
status change.  "deleted" is model.StatusDeleted. -/
def updateServerInTransaction (cfgEnable : Bool)
    (structuralOK : ServerJSON → Bool) (packageOK : String → Bool)
    (st : RegState) (name version : String) (req : ServerJSON)
    (newStatus : Option String) : UpdateOutcome :=
  match getServerByNameAndVersion st name version with
  | none => ⟨.error .notFound, false, false⟩
  | some current =>
    let currentlyDeleted := current.meta.status == "deleted"
    let beingDeleted := newStatus == some "deleted"
    let skip := currentlyDeleted || beingDeleted
    match validateUpdateRequest cfgEnable structuralOK packageOK req skip with
    | (some e, sr, rr) => ⟨.error e, sr, rr⟩
    | (none, sr, rr) =>
      match findDuplicateRemoteURL st req.name req.remotes with
      | some e => ⟨.error e, sr, rr⟩
      | none =>
        let st1 := dbUpdateServer st name version req
        match newStatus with
        | some s => ⟨.ok (setServerStatus st1 name version s), sr, rr⟩
        | none => ⟨.ok st1, sr, rr⟩

/-! ## Importer registry fetch (registry client package, FetchAllServers) -/

/-- One entry of a registry page; only the fields this loop reads. -/
structure ServerEntry where
  name : String
  version : String
  status : String
deriving DecidableEq, Repr

/-- Pagination metadata of a registry page. -/
structure PageMetadata where
  count : Nat
  nextCursor : String
deriving DecidableEq, Repr

/-- One page of the registry envelope. -/
structure RegistryPage where
  servers : List ServerEntry
  metadata : PageMetadata
deriving DecidableEq, Repr

/-- pageLimit from FetchAllServers. -/
def pageLimit : Nat := 100

/-- The status filter of FetchAllServers: keep entries whose status is empty
or "active". -/
def isActiveEntry (s : ServerEntry) : Bool :=
  s.status == "" || s.status == "active"

/-- The pagination loop of FetchAllServers.  fetch models one HTTP GET of
the registry with a limit and a cursor (none is a transport or decode
failure, which aborts the whole fetch).  fuel bounds the iteration count so
the embedding is total; the source loops unconditionally.  Returns the
collected entries and the trace of (limit, cursor) requests issued. -/
def fetchAllServersLoop (fetch : Nat → String → Option RegistryPage) :
    Nat → String → Option (List ServerEntry × List (Nat × String))
  | 0, _ => none
  | fuel + 1, cursor =>
    match fetch pageLimit cursor with
    | none => none
    | some page =>
      let active := page.servers.filter isActiveEntry
      if page.metadata.nextCursor = "" then some (active, [(pageLimit, cursor)])
      else
        match fetchAllServersLoop fetch fuel page.metadata.nextCursor with
        | none => none
        | some (rest, reqs) => some (active ++ rest, (pageLimit, cursor) :: reqs)

/-- FetchAllServers starts with the empty cursor. -/
def fetchAllServers (fetch : Nat → String → Option RegistryPage) (fuel : Nat) :
    Option (List ServerEntry × List (Nat × String)) :=
  fetchAllServersLoop fetch fuel ""

/-- A terminating cursor chain: the pages a registry serves starting from a
cursor, where every page but the last announces a non-empty nextCursor and
the last announces an empty one. -/
inductive PageChain (fetch : Nat → String → Option RegistryPage) :
    String → List RegistryPage → Prop where
  | last {c p} : fetch pageLimit c = some p → p.metadata.nextCursor = "" →
      PageChain fetch c [p]
  | cons {c p ps} : fetch pageLimit c = some p → p.metadata.nextCursor ≠ "" →
      PageChain fetch p.metadata.nextCursor ps → PageChain fetch c (p :: ps)

/-- The cursor of each request the loop issues while walking a chain. -/
def chainCursors (start : String) : List RegistryPage → List String
  | [] => []
  | p :: ps => start :: chainCursors p.metadata.nextCursor ps

/-! ## README seed encode / decode (seed package)

Bytes are Nats below 256.  The Go standard-library codecs the seed package
uses are embedded directly: encoding/base64 StdEncoding (padding required;
the decoder here does not model Go's tolerance of embedded newlines, which
none of the properties touch), encoding/hex, and crypto/sha256.  SHA-256 is
implemented over Nat with explicit reduction modulo 2^32. -/

/-- Lowercase hex digit for a value below 16 (encoding/hex alphabet). -/
def hexDigitChar (n : Nat) : Char :=
  if n < 10 then Char.ofNat (48 + n) else Char.ofNat (87 + n)

/-- hex.EncodeToString: two lowercase digits per byte. -/
def hexEncodeChars : List Nat → List Char
  | [] => []
  | b :: rest => hexDigitChar (b / 16) :: hexDigitChar (b % 16) :: hexEncodeChars rest

/-- hex.EncodeToString producing a String. -/
def hexEncode (bs : List Nat) : String := String.mk (hexEncodeChars bs)

/-- fromHexChar of encoding/hex: digits, lowercase and uppercase letters. -/
def hexCharVal (c : Char) : Option Nat :=
  if '0' ≤ c && c ≤ '9' then some (c.toNat - 48)
  else if 'a' ≤ c && c ≤ 'f' then some (c.toNat - 87)
  else if 'A' ≤ c && c ≤ 'F' then some (c.toNat - 55)
  else none

/-- hex.DecodeString over chars: fails on an odd length or a non-hex
character. -/
def hexDecodeChars : List Char → Option (List Nat)
  | [] => some []
  | [_] => none
  | c1 :: c2 :: rest =>
    match hexCharVal c1, hexCharVal c2 with
    | some hi, some lo =>
      match hexDecodeChars rest with
      | some bs => some ((hi * 16 + lo) :: bs)
      | none => none
    | _, _ => none

/-- hex.DecodeString. -/
def hexDecode (s : String) : Option (List Nat) := hexDecodeChars s.toList

/-- The standard base64 alphabet (base64.StdEncoding). -/
def b64Char (n : Nat) : Char :=
  if n < 26 then Char.ofNat (65 + n)
  else if n < 52 then Char.ofNat (71 + n)
  else if n < 62 then Char.ofNat (n - 4)
  else if n = 62 then '+' else '/'

/-- Inverse of the standard base64 alphabet. -/
def b64Val (c : Char) : Option Nat :=
  if 'A' ≤ c && c ≤ 'Z' then some (c.toNat - 65)
  else if 'a' ≤ c && c ≤ 'z' then some (c.toNat - 71)
  else if '0' ≤ c && c ≤ '9' then some (c.toNat + 4)
  else if c = '+' then some 62
  else if c = '/' then some 63
  else none

/-- base64.StdEncoding.EncodeToString over bytes, three at a time, with
trailing padding. -/
def b64EncodeChars : List Nat → List Char
  | [] => []
  | [a] => [b64Char (a / 4), b64Char (a % 4 * 16), '=', '=']
  | [a, b] => [b64Char (a / 4), b64Char (a % 4 * 16 + b / 16), b64Char (b % 16 * 4), '=']
  | a :: b :: c :: rest =>
    b64Char (a / 4) :: b64Char (a % 4 * 16 + b / 16) ::
    b64Char (b % 16 * 4 + c / 64) :: b64Char (c % 64) :: b64EncodeChars rest

/-- base64.StdEncoding.EncodeToString. -/
def b64EncodeString (bs : List Nat) : String := String.mk (b64EncodeChars bs)

/-- base64.StdEncoding.DecodeString over chars: four characters per quantum,
padding allowed only in the final quantum, trailing bits ignored
(StdEncoding is non-strict). -/
def b64DecodeChars : List Char → Option (List Nat)
  | [] => some []
  | c1 :: c2 :: c3 :: c4 :: rest =>
    match b64Val c1, b64Val c2 with
    | some v1, some v2 =>
      if c3 = '=' then
        if c4 = '=' ∧ rest = [] then some [v1 * 4 + v2 / 16] else none
      else
        match b64Val c3 with
        | some v3 =>
          if c4 = '=' then
            if rest = [] then some [v1 * 4 + v2 / 16, v2 % 16 * 16 + v3 / 4] else none
          else
            match b64Val c4 with
            | some v4 =>
              match b64DecodeChars rest with
              | some bs =>
                some ((v1 * 4 + v2 / 16) :: (v2 % 16 * 16 + v3 / 4) :: (v3 % 4 * 64 + v4) :: bs)
              | none => none
            | none => none
        | none => none
    | _, _ => none
  | _ => none

/-- base64.StdEncoding.DecodeString. -/
def b64DecodeString (s : String) : Option (List Nat) := b64DecodeChars s.toList

/-- Reduction modulo 2^32: SHA-256 works on 32-bit words. -/
def w32 (n : Nat) : Nat := n % 4294967296

/-- 32-bit right rotation. -/
def rotr32 (x n : Nat) : Nat := w32 (x >>> n ||| x <<< (32 - n))

/-- SHA-256 big sigma 0. -/
def bsig0 (x : Nat) : Nat := rotr32 x 2 ^^^ rotr32 x 13 ^^^ rotr32 x 22

/-- SHA-256 big sigma 1. -/
def bsig1 (x : Nat) : Nat := rotr32 x 6 ^^^ rotr32 x 11 ^^^ rotr32 x 25

/-- SHA-256 small sigma 0. -/
def ssig0 (x : Nat) : Nat := rotr32 x 7 ^^^ rotr32 x 18 ^^^ (x >>> 3)

/-- SHA-256 small sigma 1. -/
def ssig1 (x : Nat) : Nat := rotr32 x 17 ^^^ rotr32 x 19 ^^^ (x >>> 10)

/-- The 64 SHA-256 round constants. -/
def sha256K : List Nat :=
  [1116352408, 1899447441, 3049323471, 3921009573, 961987163,
   1508970993, 2453635748, 2870763221, 3624381080, 310598401,
   607225278, 1426881987, 1925078388, 2162078206, 2614888103,
   3248222580, 3835390401, 4022224774, 264347078, 604807628,
   770255983, 1249150122, 1555081692, 1996064986, 2554220882,
   2821834349, 2952996808, 3210313671, 3336571891, 3584528711,
   113926993, 338241895, 666307205, 773529912, 1294757372,
   1396182291, 1695183700, 1986661051, 2177026350, 2456956037,
   2730485921, 2820302411, 3259730800, 3345764771, 3516065817,
   3600352804, 4094571909, 275423344, 430227734, 506948616,
   659060556, 883997877, 958139571, 1322822218, 1537002063,
   1747873779, 1955562222, 2024104815, 2227730452, 2361852424,
   2428436474, 2756734187, 3204031479, 3329325298]

/-- The SHA-256 initial hash value. -/
def sha256H0 : List Nat :=
  [1779033703, 3144134277, 1013904242, 2773480762,
   1359893119, 2600822924, 528734635, 1541459225]

/-- Big-endian 32-bit words from groups of four bytes. -/
def bytesToWords : List Nat → List Nat
  | b0 :: b1 :: b2 :: b3 :: rest =>
    (b0 * 16777216 + b1 * 65536 + b2 * 256 + b3) :: bytesToWords rest
  | _ => []

/-- Big-endian bytes of one 32-bit word. -/
def wordToBytes (w : Nat) : List Nat :=
  [w / 16777216 % 256, w / 65536 % 256, w / 256 % 256, w % 256]

/-- Big-endian eight-byte encoding of the message bit length. -/
def be64 (n : Nat) : List Nat :=
  [n / 72057594037927936 % 256, n / 281474976710656 % 256,
   n / 1099511627776 % 256, n / 4294967296 % 256,
   n / 16777216 % 256, n / 65536 % 256, n / 256 % 256, n % 256]

/-- SHA-256 padding: append 0x80, zero bytes to 56 mod 64, then the 64-bit
big-endian bit length. -/
def sha256Pad (msg : List Nat) : List Nat :=
  let z := (64 + 56 - (msg.length + 1) % 64) % 64
  msg ++ (128 :: List.replicate z 0) ++ be64 (msg.length * 8)

/-- 64-byte blocks, structurally recursive on a fuel bounded by the list
length (every step consumes at least one element). -/
def toBlocksF : Nat → List Nat → List (List Nat)
  | 0, _ => []
  | n + 1, l => if l = [] then [] else l.take 64 :: toBlocksF n (l.drop 64)

/-- 64-byte blocks of the padded message. -/
def toBlocks (l : List Nat) : List (List Nat) := toBlocksF l.length l

/-- Message-schedule extension: acc holds the schedule so far in reverse. -/
def scheduleExtend : Nat → List Nat → List Nat
  | 0, acc => acc
  | n + 1, acc =>
    let g := fun (i : Nat) => acc.getD i 0
    scheduleExtend n (w32 (ssig1 (g 1) + g 6 + ssig0 (g 14) + g 15) :: acc)

/-- The 64-word message schedule of one block. -/
def msgSchedule (block : List Nat) : List Nat :=
  (scheduleExtend 48 (bytesToWords block).reverse).reverse

/-- The eight working variables of the compression function. -/
structure Hash8 where
  a : Nat
  b : Nat
  c : Nat
  d : Nat
  e : Nat
  f : Nat
  g : Nat
  h : Nat
deriving DecidableEq, Repr

/-- One SHA-256 compression round for a (schedule word, constant) pair. -/
def compressRound (st : Hash8) (wk : Nat × Nat) : Hash8 :=
  let ch := st.e &&& st.f ^^^ (w32 (2 ^ 32 - 1 - st.e) &&& st.g)
  let maj := st.a &&& st.b ^^^ (st.a &&& st.c) ^^^ (st.b &&& st.c)
  let t1 := w32 (st.h + bsig1 st.e + ch + wk.1 + wk.2)
  let t2 := w32 (bsig0 st.a + maj)
  ⟨w32 (t1 + t2), st.a, st.b, st.c, w32 (st.d + t1), st.e, st.f, st.g⟩

/-- Compression of one 64-byte block into the running hash. -/
def compressBlock (h : Hash8) (block : List Nat) : Hash8 :=
  let st := ((msgSchedule block).zip sha256K).foldl compressRound h
  ⟨w32 (h.a + st.a), w32 (h.b + st.b), w32 (h.c + st.c), w32 (h.d + st.d),
   w32 (h.e + st.e), w32 (h.f + st.f), w32 (h.g + st.g), w32 (h.h + st.h)⟩

/-- Hash8 from the list of initial words. -/
def hash8OfList (l : List Nat) : Hash8 :=
  ⟨l.getD 0 0, l.getD 1 0, l.getD 2 0, l.getD 3 0,
   l.getD 4 0, l.getD 5 0, l.getD 6 0, l.getD 7 0⟩

/-- crypto/sha256 Sum256: the 32-byte digest of a byte sequence. -/
def sha256Bytes (msg : List Nat) : List Nat :=
  let final := (toBlocks (sha256Pad msg)).foldl compressBlock (hash8OfList sha256H0)
  wordToBytes final.a ++ wordToBytes final.b ++ wordToBytes final.c ++
  wordToBytes final.d ++ wordToBytes final.e ++ wordToBytes final.f ++
  wordToBytes final.g ++ wordToBytes final.h

/-- ReadmeEntry of the seed package: base64 content, content type, size and
hex sha256 digest.  SizeBytes is a Go int, hence an Int here. -/
structure ReadmeEntry where
  content : String
  contentType : String
  sizeBytes : Int
  sha256 : String
deriving DecidableEq, Repr

/-- EncodeReadme: empty content yields the zero-valued entry with only the
content type set; otherwise base64 content, byte size and hex sha256. -/
def EncodeReadme (content : List Nat) (contentType : String) : ReadmeEntry :=
  if content.length = 0 then ⟨"", contentType, 0, ""⟩
  else ⟨b64EncodeString content, contentType, (content.length : Int),
        hexEncode (sha256Bytes content)⟩

/-- ReadmeEntry.Decode: empty content short-circuits to success; otherwise
base64-decode, check the size when positive, and when a digest is stored,
hex-decode it and compare with the sha256 of the decoded bytes. -/
def ReadmeEntry.Decode (e : ReadmeEntry) : Except String (List Nat × String) :=
  if e.content = "" then .ok ([], e.contentType)
  else
    match b64DecodeString e.content with
    | none => .error "failed to decode README content"
    | some data =>
      if 0 < e.sizeBytes ∧ (data.length : Int) ≠ e.sizeBytes then
        .error "README size mismatch"
      else if e.sha256 ≠ "" then
        match hexDecode e.sha256 with
        | none => .error "invalid README sha256"
        | some expected =>
          if expected = sha256Bytes data then .ok (data, e.contentType)
          else .error "README sha256 mismatch"
      else .ok (data, e.contentType)

/-! ## Theorems -/

/-! ### C9: generated resource names -/

theorem squashDashes_cons_ne (c : Char) (m : List Char) (h : (c == '-') = false) :
    squashDashes (c :: m) = c :: squashDashes m := by
  cases m with
  | nil => rfl
  | cons c2 rest => simp [squashDashes, h]

theorem sanitizeRuns_eq_squash (l : List Char) :
    sanitizeRuns false l = squashDashes (l.map dashNormalize) ∧
    '-' :: sanitizeRuns true l = squashDashes ('-' :: l.map dashNormalize) := by
  induction l with
  | nil => constructor <;> rfl
  | cons c rest ih =>
    by_cases hk : keepChar c = true
    · have hd : dashNormalize c = c := by simp [dashNormalize, hk]
      have hne : (c == '-') = false := by
        rcases Bool.eq_false_or_eq_true (c == '-') with h | h
        · exfalso
          have hc : c = '-' := by simpa using h
          subst hc
          exact absurd hk (by decide)
        · exact h
      constructor
      · rw [show sanitizeRuns false (c :: rest) = c :: sanitizeRuns false rest by
          simp [sanitizeRuns, hk]]
        rw [List.map_cons, hd, squashDashes_cons_ne c _ hne, ih.1]
      · rw [show sanitizeRuns true (c :: rest) = c :: sanitizeRuns false rest by
          simp [sanitizeRuns, hk]]
        rw [List.map_cons, hd]
        rw [show squashDashes ('-' :: c :: rest.map dashNormalize) =
            '-' :: squashDashes (c :: rest.map dashNormalize) by
          simp [squashDashes, hne]]
        rw [squashDashes_cons_ne c _ hne, ih.1]
    · have hk' : keepChar c = false := by simpa using hk
      have hd : dashNormalize c = '-' := by simp [dashNormalize, hk']
      constructor
      · rw [show sanitizeRuns false (c :: rest) = '-' :: sanitizeRuns true rest by
          simp [sanitizeRuns, hk']]
        rw [List.map_cons, hd]
        exact ih.2
      · rw [show sanitizeRuns true (c :: rest) = sanitizeRuns true rest by
          simp [sanitizeRuns, hk']]
        rw [List.map_cons, hd]
        rw [show squashDashes ('-' :: '-' :: rest.map dashNormalize) =
            squashDashes ('-' :: rest.map dashNormalize) by simp [squashDashes]]
        exact ih.2

/-- C9 (amended): the generated resource name is obtained by first appending
"-" ++ version to the raw name when the version is non-empty, then
lower-casing, replacing every character outside [a-z0-9] (the dash included)
by a dash, collapsing consecutive dashes, trimming dashes, and falling back
to "agent" when the result is empty. -/
theorem c9_resource_name (name version : String) :
    AgentResourceName name version =
      (let base := if version ≠ "" then name ++ "-" ++ version else name
       let s := trimDashes (squashDashes ((base.toList.map Char.toLower).map dashNormalize))
       if s.isEmpty then "agent" else String.mk s) := by
  unfold AgentResourceName sanitizeK8sName
  by_cases h : version = "" <;>
    simp [h, (sanitizeRuns_eq_squash _).1]

/-- C9 counterexample: on name "a--b" and version "1.0" the code produces
"a-b-1-0" (dash runs collapsed, version sanitized too), while the claim's
procedure (dashes kept verbatim, version appended after sanitization)
produces "a--b-1.0". -/
theorem c9_counterexample :
    AgentResourceName "a--b" "1.0" = "a-b-1-0" ∧
    claimResourceName "a--b" "1.0" = "a--b-1.0" ∧
    AgentResourceName "a--b" "1.0" ≠ claimResourceName "a--b" "1.0" := by
  refine ⟨by decide, by decide, by decide⟩

/-! ### C6: deployment-config key partitioning -/

theorem beginsWith_iff (p : List Char) : ∀ s : List Char,
    beginsWith p s = true ↔ s.take p.length = p := by
  induction p with
  | nil => intro s; simp [beginsWith]
  | cons a ps ih =>
    intro s
    cases s with
    | nil => simp [beginsWith]
    | cons c cs =>
      simp only [beginsWith, List.length_cons, List.take_succ_cons, List.cons.injEq,
        Bool.and_eq_true, beq_iff_eq, ih]
      constructor
      · rintro ⟨rfl, h⟩; exact ⟨rfl, h⟩
      · rintro ⟨rfl, h⟩; exact ⟨rfl, h⟩


theorem headerCond_iff (k : String) :
    (k.toList.length > 7 && strTake k 7 == "HEADER_") = true ↔
    (beginsWith "HEADER_".toList k.toList = true ∧ 7 < k.toList.length) := by
  have hlen : "HEADER_".toList.length = 7 := by decide
  rw [beginsWith_iff, hlen]
  simp only [Bool.and_eq_true, decide_eq_true_eq, beq_iff_eq, strTake, gt_iff_lt]
  constructor
  · rintro ⟨h1, h2⟩
    refine ⟨?_, h1⟩
    have h3 := congrArg String.data h2
    simpa using h3
  · rintro ⟨h1, h2⟩
    refine ⟨h2, ?_⟩
    rw [h1]
    rfl

theorem argCond_iff (k : String) :
    (k.toList.length > 4 && strTake k 4 == "ARG_") = true ↔
    (beginsWith "ARG_".toList k.toList = true ∧ 4 < k.toList.length) := by
  have hlen : "ARG_".toList.length = 4 := by decide
  rw [beginsWith_iff, hlen]
  simp only [Bool.and_eq_true, decide_eq_true_eq, beq_iff_eq, strTake, gt_iff_lt]
  constructor
  · rintro ⟨h1, h2⟩
    refine ⟨?_, h1⟩
    have h3 := congrArg String.data h2
    simpa using h3
  · rintro ⟨h1, h2⟩
    refine ⟨h2, ?_⟩
    rw [h1]
    rfl

theorem header_arg_exclusive (k : String)
    (h1 : beginsWith "HEADER_".toList k.toList = true)
    (h2 : beginsWith "ARG_".toList k.toList = true) : False := by
  cases hk : k.toList with
  | nil => rw [hk] at h1; exact absurd h1 (by decide)
  | cons c cs =>
    rw [hk] at h1 h2
    have e1 : c = 'H' := by
      have h3 := h1
      simp only [show "HEADER_".toList = ['H', 'E', 'A', 'D', 'E', 'R', '_'] from rfl,
        beginsWith, Bool.and_eq_true, beq_iff_eq] at h3
      exact h3.1.symm
    have e2 : c = 'A' := by
      have h3 := h2
      simp only [show "ARG_".toList = ['A', 'R', 'G', '_'] from rfl,
        beginsWith, Bool.and_eq_true, beq_iff_eq] at h3
      exact h3.1.symm
    rw [e1] at e2
    exact absurd e2 (by decide)

theorem partitionConfig_cons_header (k v : String) (rest : List (String × String))
    (h : (k.toList.length > 7 && strTake k 7 == "HEADER_") = true) :
    partitionConfig ((k, v) :: rest) =
      { partitionConfig rest with
        headerValues := (strDrop k 7, v) :: (partitionConfig rest).headerValues } := by
  simp only [partitionConfig]
  rw [if_pos h]

theorem partitionConfig_cons_arg (k v : String) (rest : List (String × String))
    (hH : (k.toList.length > 7 && strTake k 7 == "HEADER_") = false)
    (h : (k.toList.length > 4 && strTake k 4 == "ARG_") = true) :
    partitionConfig ((k, v) :: rest) =
      { partitionConfig rest with
        argValues := (strDrop k 4, v) :: (partitionConfig rest).argValues } := by
  simp only [partitionConfig]
  rw [if_neg (fun hc => Bool.false_ne_true (hH ▸ hc)), if_pos h]

theorem partitionConfig_cons_env (k v : String) (rest : List (String × String))
    (hH : (k.toList.length > 7 && strTake k 7 == "HEADER_") = false)
    (hA : (k.toList.length > 4 && strTake k 4 == "ARG_") = false) :
    partitionConfig ((k, v) :: rest) =
      { partitionConfig rest with
        envValues := (k, v) :: (partitionConfig rest).envValues } := by
  simp only [partitionConfig]
  rw [if_neg (fun hc => Bool.false_ne_true (hH ▸ hc)),
    if_neg (fun hc => Bool.false_ne_true (hA ▸ hc))]

/-- C6 (amended): the startServers loop partitions the configuration by
prefix, with the proviso that the key must be strictly longer than the
prefix: keys longer than 7 characters starting with "HEADER_" become headers
named by the key with the prefix stripped, keys longer than 4 characters
starting with "ARG_" become runtime arguments with the prefix stripped, and
every other key (the bare prefixes "HEADER_" and "ARG_" included) becomes an
environment variable; values are carried unchanged. -/
theorem c6_config_partition (cfg : List (String × String)) :
    (partitionConfig cfg).headerValues =
      cfg.filterMap (fun e =>
        if beginsWith "HEADER_".toList e.1.toList = true ∧ 7 < e.1.toList.length
        then some (strDrop e.1 7, e.2) else none) ∧
    (partitionConfig cfg).argValues =
      cfg.filterMap (fun e =>
        if beginsWith "ARG_".toList e.1.toList = true ∧ 4 < e.1.toList.length
        then some (strDrop e.1 4, e.2) else none) ∧
    (partitionConfig cfg).envValues =
      cfg.filterMap (fun e =>
        if (beginsWith "HEADER_".toList e.1.toList = true ∧ 7 < e.1.toList.length) ∨
           (beginsWith "ARG_".toList e.1.toList = true ∧ 4 < e.1.toList.length)
        then none else some e) := by
  induction cfg with
  | nil => exact ⟨rfl, rfl, rfl⟩
  | cons e rest ih =>
    obtain ⟨k, v⟩ := e
    obtain ⟨ih1, ih2, ih3⟩ := ih
    by_cases hH : beginsWith "HEADER_".toList k.toList = true ∧ 7 < k.toList.length
    · have hb : (k.toList.length > 7 && strTake k 7 == "HEADER_") = true :=
        (headerCond_iff k).mpr hH
      have hnA : ¬ (beginsWith "ARG_".toList k.toList = true ∧ 4 < k.toList.length) :=
        fun hA => header_arg_exclusive k hH.1 hA.1
      rw [partitionConfig_cons_header k v rest hb]
      refine ⟨?_, ?_, ?_⟩
      · simp only [List.filterMap_cons]
        rw [if_pos hH]
        simpa using ih1
      · simp only [List.filterMap_cons]
        rw [if_neg hnA]
        exact ih2
      · simp only [List.filterMap_cons]
        rw [if_pos (Or.inl hH)]
        exact ih3
    · have hb : (k.toList.length > 7 && strTake k 7 == "HEADER_") = false := by
        rcases Bool.eq_false_or_eq_true (k.toList.length > 7 && strTake k 7 == "HEADER_")
          with h | h
        · exact absurd ((headerCond_iff k).mp h) hH
        · exact h
      by_cases hA : beginsWith "ARG_".toList k.toList = true ∧ 4 < k.toList.length
      · have hb2 : (k.toList.length > 4 && strTake k 4 == "ARG_") = true :=
          (argCond_iff k).mpr hA
        rw [partitionConfig_cons_arg k v rest hb hb2]
        refine ⟨?_, ?_, ?_⟩
        · simp only [List.filterMap_cons]
          rw [if_neg hH]
          exact ih1
        · simp only [List.filterMap_cons]
          rw [if_pos hA]
          simpa using ih2
        · simp only [List.filterMap_cons]
          rw [if_pos (Or.inr hA)]
          exact ih3
      · have hb2 : (k.toList.length > 4 && strTake k 4 == "ARG_") = false := by
          rcases Bool.eq_false_or_eq_true (k.toList.length > 4 && strTake k 4 == "ARG_")
            with h | h
          · exact absurd ((argCond_iff k).mp h) hA
          · exact h
        rw [partitionConfig_cons_env k v rest hb hb2]
        refine ⟨?_, ?_, ?_⟩
        · simp only [List.filterMap_cons]
          rw [if_neg hH]
          exact ih1
        · simp only [List.filterMap_cons]
          rw [if_neg hA]
          exact ih2
        · simp only [List.filterMap_cons]
          rw [if_neg (by tauto)]
          simpa using ih3

/-- C6 counterexample: the key "HEADER_" does start with "HEADER_", yet the
code files it as an environment variable, not as a header, because the code
requires the key to be strictly longer than the prefix. -/
theorem c6_counterexample :
    beginsWith "HEADER_".toList "HEADER_".toList = true ∧
    (partitionConfig [("HEADER_", "v")]).headerValues = [] ∧
    (partitionConfig [("HEADER_", "v")]).envValues = [("HEADER_", "v")] := by
  refine ⟨by decide, by decide, by decide⟩

/-! ### C2: Kubernetes reconcile apply semantics -/

/-- C2 (amended): every operation the Kubernetes reconcile issues is a
server-side apply under the fixed field-manager identity "agentregistry"
with force-ownership; the reconcile never issues a deletion, so resources
previously applied but absent from the DesiredState are left in place
(deletion happens only through the explicit DeleteKubernetes* calls). -/
theorem c2_reconcile_apply_only (cfg : Option KubernetesRuntimeConfig) :
    ∀ a ∈ (ensureKubernetesRuntime cfg).actions,
      (∃ o, a = K8sAction.applySSA o fieldManager true) ∧
      (∀ o, a ≠ K8sAction.delete o) := by
  intro a ha
  cases cfg with
  | none => simp [ensureKubernetesRuntime] at ha
  | some c =>
    simp only [ensureKubernetesRuntime] at ha
    by_cases h : c.agents.length = 0 ∧ c.remoteMCPServers.length = 0 ∧ c.mcpServers.length = 0
    · rw [if_pos h] at ha
      simp at ha
    · rw [if_neg h] at ha
      simp only [List.mem_append, List.mem_map] at ha
      have hshape : ∃ o, a = applyResource o := by
        rcases ha with ((⟨o, _, rfl⟩ | ⟨o, _, rfl⟩) | ⟨o, _, rfl⟩) | ⟨o, _, rfl⟩ <;>
          exact ⟨defaultNs o, rfl⟩
      obtain ⟨o, rfl⟩ := hshape
      exact ⟨⟨o, rfl⟩, fun _ h => K8sAction.noConfusion h⟩

/-- C2 witness: a concrete reconcile of one agent issues its server-side
apply under field manager "agentregistry" with force-ownership and issues no
deletion. -/
theorem c2_witness :
    (∃ o, K8sAction.applySSA ⟨"Agent", "x", "default"⟩ fieldManager true =
      K8sAction.applySSA o fieldManager true) ∧
    (∀ o, K8sAction.applySSA ⟨"Agent", "x", "default"⟩ fieldManager true ≠
      K8sAction.delete o) :=
  c2_reconcile_apply_only (some ⟨[⟨"Agent", "x", ""⟩], [], [], []⟩)
    (K8sAction.applySSA ⟨"Agent", "x", "default"⟩ fieldManager true) (by decide)

/-- C2 counterexample: a reconcile whose DesiredState contains only the new
agent does run (its trace is non-empty) yet does not delete the previously
applied agent "old" that is absent from the DesiredState, contradicting the
claim's deletion clause. -/
theorem c2_counterexample :
    (ensureKubernetesRuntime (some ⟨[⟨"Agent", "new", "default"⟩], [], [], []⟩)).actions ≠ [] ∧
    K8sAction.delete ⟨"Agent", "old", "default"⟩ ∉
      (ensureKubernetesRuntime (some ⟨[⟨"Agent", "new", "default"⟩], [], [], []⟩)).actions := by
  refine ⟨by decide, by decide⟩

/-! ### C10: reconcile of an empty Kubernetes config is a no-op -/

/-- C10: when the agents, remote MCP servers and local MCP servers of the
Kubernetes runtime config are all empty, the reconcile returns success
immediately: no Kubernetes client is created and no cluster operation is
issued, so previously applied resources are left untouched. -/
theorem c10_empty_reconcile_noop (cfg : KubernetesRuntimeConfig)
    (ha : cfg.agents = []) (hr : cfg.remoteMCPServers = []) (hm : cfg.mcpServers = []) :
    ensureKubernetesRuntime (some cfg) = ⟨false, []⟩ := by
  simp only [ensureKubernetesRuntime]
  rw [if_pos (by simp [ha, hr, hm])]

/-- C10 witness: a concrete config with no agents and no MCP servers (even
with a leftover ConfigMap entry) reconciles to the no-op result. -/
theorem c10_witness :
    ensureKubernetesRuntime (some ⟨[], [], [], [⟨"ConfigMap", "cm", ""⟩]⟩) =
      ⟨false, []⟩ :=
  c10_empty_reconcile_noop ⟨[], [], [], [⟨"ConfigMap", "cm", ""⟩]⟩ rfl rfl rfl

/-! ### C3: artifact resolution (remote versus package) -/

/-- C3 (amended): a server with neither remotes nor packages is skipped
without error; a server is resolved to its first remote exactly when it has
at least one remote and (preferRemote is set or it has no packages);
otherwise (it has packages and either preferRemote is unset or it has no
remotes) it is resolved as a command-type server.  The whole translation is
the pointwise resolution of the request list. -/
theorem c3_resolution_rule (gen : String → String) (req : MCPServerRunRequest) :
    (resolveMCPServerConfig gen req = none ↔
      req.registryServer.remotes = [] ∧ req.registryServer.packages = []) ∧
    (∀ r rs, req.registryServer.remotes = r :: rs →
      (req.preferRemote = true ∨ req.registryServer.packages = []) →
      resolveMCPServerConfig gen req =
        some ⟨gen req.registryServer.name, "remote", r.url,
          mergeRemoteHeaders r req.headerValues⟩) ∧
    (req.registryServer.packages ≠ [] →
      (req.preferRemote = false ∨ req.registryServer.remotes = []) →
      resolveMCPServerConfig gen req =
        some ⟨gen req.registryServer.name, "command", "", []⟩) ∧
    (∀ reqs, createResolvedMCPServerConfigs gen reqs =
      reqs.filterMap (resolveMCPServerConfig gen)) := by
  obtain ⟨server, pr, hv⟩ := req
  obtain ⟨nm, remotes, packages⟩ := server
  refine ⟨?_, ?_, ?_, fun _ => rfl⟩
  · cases remotes with
    | nil =>
      cases packages with
      | nil => simp [resolveMCPServerConfig]
      | cons p ps => simp [resolveMCPServerConfig]
    | cons r rs =>
      cases pr <;> cases packages <;> simp [resolveMCPServerConfig]
  · rintro r rs rfl hpref
    rcases hpref with hpref | hpref
    · simp only at hpref
      subst hpref
      simp [resolveMCPServerConfig]
    · simp only at hpref
      subst hpref
      cases pr <;> simp [resolveMCPServerConfig]
  · intro hp hside
    cases packages with
    | nil => exact absurd rfl hp
    | cons p ps =>
      rcases hside with hside | hside
      · simp only at hside
        subst hside
        cases remotes with
        | nil => simp [resolveMCPServerConfig]
        | cons r rs => simp [resolveMCPServerConfig]
      · simp only at hside
        subst hside
        cases pr <;> simp [resolveMCPServerConfig]

/-- C3 witness: a server declaring one remote and no packages with
preferRemote set resolves to its first remote. -/
theorem c3_witness :
    resolveMCPServerConfig (fun n => n)
      ⟨⟨"s", [⟨"https://r.example/mcp", []⟩], []⟩, true, []⟩ =
      some ⟨"s", "remote", "https://r.example/mcp",
        mergeRemoteHeaders ⟨"https://r.example/mcp", []⟩ []⟩ :=
  ((c3_resolution_rule (fun n => n)
    ⟨⟨"s", [⟨"https://r.example/mcp", []⟩], []⟩, true, []⟩).2.1)
    ⟨"https://r.example/mcp", []⟩ [] rfl (Or.inl rfl)

/-- C3 counterexample: a server with one remote, no packages and
preferRemote unset is resolved to its remote by the code, while the claim's
rule (first package else failure, since preferRemote is false) demands a
resolution failure. -/
theorem c3_counterexample :
    claimResolve ⟨⟨"s", [⟨"https://r.example/mcp", []⟩], []⟩, false, []⟩ = none ∧
    resolveMCPServerConfig (fun n => n)
      ⟨⟨"s", [⟨"https://r.example/mcp", []⟩], []⟩, false, []⟩ =
      some ⟨"s", "remote", "https://r.example/mcp", []⟩ := by
  refine ⟨by decide, by decide⟩

/-! ### C1: the latest flag on publish -/

theorem latestCount_cons (r : StoredServer) (l : RegState) (n : String) :
    latestCount (r :: l) n =
      (if r.name == n && r.meta.isLatest then 1 else 0) + latestCount l n := by
  simp only [latestCount, List.filter_cons]
  split
  · simp [Nat.add_comm]
  · simp

theorem latestCount_append (a b : RegState) (n : String) :
    latestCount (a ++ b) n = latestCount a n + latestCount b n := by
  simp [latestCount, List.filter_append]

theorem latestCount_unmark_self (st : RegState) (n : String) :
    latestCount (unmarkAsLatest st n) n = 0 := by
  induction st with
  | nil => rfl
  | cons r rest ih =>
    simp only [unmarkAsLatest, List.map_cons] at *
    rw [latestCount_cons, ih]
    by_cases h : (r.name == n) = true
    · rw [if_pos h]
      simp [h]
    · rw [if_neg h]
      have h2 : (r.name == n) = false := by
        rcases Bool.eq_false_or_eq_true (r.name == n) with h' | h'
        · exact absurd h' h
        · exact h'
      simp [h2]

theorem latestCount_unmark_other (st : RegState) (n m : String) (h : m ≠ n) :
    latestCount (unmarkAsLatest st n) m = latestCount st m := by
  induction st with
  | nil => rfl
  | cons r rest ih =>
    simp only [unmarkAsLatest, List.map_cons] at *
    rw [latestCount_cons, ih, latestCount_cons]
    congr 1
    by_cases hr : (r.name == n) = true
    · rw [if_pos hr]
      have hn : r.name = n := by simpa using hr
      have hm : (r.name == m) = false := by
        simp only [beq_eq_false_iff_ne, ne_eq, hn]
        exact fun hmn => h hmn.symm
      simp [hm]
    · rw [if_neg hr]

theorem getCurrentLatest_none_count (st : RegState) (n : String)
    (h : getCurrentLatestVersion st n = none) : latestCount st n = 0 := by
  have h2 := List.find?_eq_none.mp h
  have h3 : st.filter (fun r => r.name == n && r.meta.isLatest) = [] := by
    rw [List.filter_eq_nil_iff]
    intro r hr
    exact h2 r hr
  simp [latestCount, h3]

theorem getCurrentLatest_mem (st : RegState) (n : String) (cur : StoredServer)
    (h : getCurrentLatestVersion st n = some cur) :
    cur ∈ st ∧ cur.name = n ∧ cur.meta.isLatest = true := by
  have hmem := List.mem_of_find?_eq_some h
  have hp := List.find?_some h
  simp only [Bool.and_eq_true, beq_iff_eq] at hp
  exact ⟨hmem, hp.1, hp.2⟩

theorem publish_step_latest
    (compare : String → String → Nat → Nat → Int) (validateReq : ServerJSON → Bool)
    (st : RegState) (req : ServerJSON) (now : Nat) (st' : RegState) (row : StoredServer)
    (hinv : AtMostOneLatest st)
    (h : createServerInTransaction compare validateReq st req now = .ok (st', row)) :
    AtMostOneLatest st' ∧
    (row.meta.isLatest = true ↔
      (getCurrentLatestVersion st req.name = none ∨
       ∃ cur, getCurrentLatestVersion st req.name = some cur ∧
         compare req.version cur.version now cur.meta.publishedAt > 0)) ∧
    (∀ cur, getCurrentLatestVersion st req.name = some cur →
      ¬ compare req.version cur.version now cur.meta.publishedAt > 0 →
      cur ∈ st' ∧ row.meta.isLatest = false) ∧
    (∀ cur, getCurrentLatestVersion st req.name = some cur →
      compare req.version cur.version now cur.meta.publishedAt > 0 →
      ∀ r ∈ st', r.name = cur.name → r.version = cur.version → r.meta.isLatest = false) := by
  simp only [createServerInTransaction] at h
  by_cases hv : validateReq req = false
  · rw [if_pos hv] at h
    exact Except.noConfusion h
  rw [if_neg hv] at h
  cases hdup : findDuplicateRemoteURL st req.name req.remotes with
  | some e => rw [hdup] at h; exact Except.noConfusion h
  | none =>
  rw [hdup] at h
  by_cases hcount : countServerVersions st req.name ≥ maxServerVersionsPerServer
  · rw [if_pos hcount] at h
    exact Except.noConfusion h
  rw [if_neg hcount] at h
  cases hex : checkVersionExists st req.name req.version with
  | true => rw [if_pos hex] at h; exact Except.noConfusion h
  | false =>
  rw [if_neg (by simp [hex])] at h
  have hexm : ∀ r ∈ st, ¬ (r.name = req.name ∧ r.version = req.version) := by
    intro r hr hcon
    have := List.any_eq_false.mp hex r hr
    simp only [Bool.and_eq_true, beq_iff_eq, not_and] at this
    exact this hcon.1 hcon.2
  cases hcl : getCurrentLatestVersion st req.name with
  | none =>
    simp only [hcl] at h
    simp only [Except.ok.injEq, Prod.mk.injEq] at h
    obtain ⟨hst, hrow⟩ := h
    subst hst
    subst hrow
    refine ⟨?_, ?_, ?_, ?_⟩
    · intro n
      rw [latestCount_append, latestCount_cons]
      by_cases hn : n = req.name
      · subst hn
        rw [getCurrentLatest_none_count st req.name hcl]
        simp [latestCount]
      · have hb : (req.name == n) = false := by
          simp only [beq_eq_false_iff_ne, ne_eq]
          exact fun e => hn e.symm
        simp only [hb, Bool.false_and, if_false, latestCount]
        simpa using hinv n
    · simp [hcl]
    · intro cur hcur
      exact Option.noConfusion hcur
    · intro cur hcur
      exact Option.noConfusion hcur
  | some cur =>
    simp only [hcl] at h
    obtain ⟨hmem, hname, hlat⟩ := getCurrentLatest_mem st req.name cur hcl
    by_cases hcmp : compare req.version cur.version now cur.meta.publishedAt > 0
    · rw [if_pos (by simp [hcmp])] at h
      simp only [Except.ok.injEq, Prod.mk.injEq] at h
      obtain ⟨hst, hrow⟩ := h
      subst hst
      subst hrow
      have hlatflag : (decide (compare req.version cur.version now cur.meta.publishedAt > 0)) = true := by
        simp [hcmp]
      refine ⟨?_, ?_, ?_, ?_⟩
      · intro n
        rw [latestCount_append, latestCount_cons]
        by_cases hn : n = req.name
        · subst hn
          rw [latestCount_unmark_self]
          simp [latestCount, hlatflag]
        · rw [latestCount_unmark_other st req.name n hn]
          have hb : (req.name == n) = false := by
            simp only [beq_eq_false_iff_ne, ne_eq]
            exact fun e => hn e.symm
          simp only [hb, Bool.false_and, if_false, latestCount]
          simpa using hinv n
      · simp only [hcl, hlatflag]
        constructor
        · intro _
          exact Or.inr ⟨cur, rfl, hcmp⟩
        · intro _
          trivial
      · intro cur' hcur' hncmp
        injection hcur' with hcur'
        subst hcur'
        exact absurd hcmp hncmp
      · intro cur' hcur' _ r hr hrn hrv
        injection hcur' with hcur'
        subst hcur'
        rcases List.mem_append.mp hr with hr | hr
        · obtain ⟨r0, hr0mem, hr0eq⟩ := List.mem_map.mp hr
          by_cases hr0n : (r0.name == req.name) = true
          · rw [if_pos hr0n] at hr0eq
            rw [← hr0eq]
          · rw [if_neg hr0n] at hr0eq
            rw [← hr0eq] at hrn
            rw [hname] at hrn
            exact absurd (by simp [hrn]) hr0n
        · simp only [List.mem_singleton] at hr
          subst hr
          exfalso
          exact hexm cur hmem ⟨hname, by simpa using hrv.symm⟩
    · rw [if_neg (by simp [hcmp])] at h
      simp only [Except.ok.injEq, Prod.mk.injEq] at h
      obtain ⟨hst, hrow⟩ := h
      subst hst
      subst hrow
      have hlatflag : (decide (compare req.version cur.version now cur.meta.publishedAt > 0)) = false := by
        simp [hcmp]
      refine ⟨?_, ?_, ?_, ?_⟩
      · intro n
        rw [latestCount_append, latestCount_cons]
        simp only [hlatflag, Bool.and_false, if_false, latestCount]
        simpa using hinv n
      · simp only [hcl, hlatflag]
        constructor
        · intro hft
          exact absurd hft (by simp)
        · rintro (hnone | ⟨cur', hcur', hcmp'⟩)
          · exact Option.noConfusion hnone
          · injection hcur' with hcur'
            subst hcur'
            exact absurd hcmp' hcmp
      · intro cur' hcur' _
        injection hcur' with hcur'
        subst hcur'
        refine ⟨List.mem_append_left _ hmem, ?_⟩
        simp [hlatflag]
      · intro cur' hcur' hcmp'
        injection hcur' with hcur'
        subst hcur'
        exact absurd hcmp' hcmp

theorem publishes_foldl_invariant
    (compare : String → String → Nat → Nat → Int) (validateReq : ServerJSON → Bool) :
    ∀ (ops : List (ServerJSON × Nat)) (st : RegState), AtMostOneLatest st →
      AtMostOneLatest (ops.foldl (fun st op =>
        match createServerInTransaction compare validateReq st op.1 op.2 with
        | .ok (st', _) => st'
        | .error _ => st) st) := by
  intro ops
  induction ops with
  | nil => intro st h; exact h
  | cons op rest ih =>
    intro st h
    simp only [List.foldl_cons]
    apply ih
    cases hc : createServerInTransaction compare validateReq st op.1 op.2 with
    | ok p =>
      obtain ⟨st', row⟩ := p
      simpa using (publish_step_latest compare validateReq st op.1 op.2 st' row h hc).1
    | error e => simpa using h

/-- C1: across any sequence of successful publishes starting from the empty
table, at most one stored version of each name carries isLatest; and on each
successful publish, the created row is marked latest exactly when there is
no current latest or the version comparison against it is strictly positive,
a non-positive (in particular equal) comparison keeps the existing latest
row in place unmarked-free, and when the new version wins, the previous
latest row is unmarked in the resulting table. -/
theorem c1_latest_flag
    (compare : String → String → Nat → Nat → Int) (validateReq : ServerJSON → Bool)
    (ops : List (ServerJSON × Nat)) (name : String)
    (st : RegState) (req : ServerJSON) (now : Nat) (st' : RegState) (row : StoredServer)
    (hinv : AtMostOneLatest st)
    (hok : createServerInTransaction compare validateReq st req now = .ok (st', row)) :
    latestCount (runPublishes compare validateReq ops) name ≤ 1 ∧
    AtMostOneLatest st' ∧
    (row.meta.isLatest = true ↔
      (getCurrentLatestVersion st req.name = none ∨
       ∃ cur, getCurrentLatestVersion st req.name = some cur ∧
         compare req.version cur.version now cur.meta.publishedAt > 0)) ∧
    (∀ cur, getCurrentLatestVersion st req.name = some cur →
      ¬ compare req.version cur.version now cur.meta.publishedAt > 0 →
      cur ∈ st' ∧ row.meta.isLatest = false) ∧
    (∀ cur, getCurrentLatestVersion st req.name = some cur →
      compare req.version cur.version now cur.meta.publishedAt > 0 →
      ∀ r ∈ st', r.name = cur.name → r.version = cur.version → r.meta.isLatest = false) := by
  obtain ⟨h1, h2, h3, h4⟩ := publish_step_latest compare validateReq st req now st' row hinv hok
  refine ⟨?_, h1, h2, h3, h4⟩
  exact publishes_foldl_invariant compare validateReq ops [] (fun _ => Nat.zero_le 1) name

/-- C1 witness: publishing "a/x" version 1.0.0 into the empty table under a
comparison that always returns +1 creates the single latest row, the
invariant holds for the resulting table, and the latest flag matches the
comparison characterization. -/
theorem c1_witness :
    latestCount (runPublishes (fun _ _ _ _ => (1 : Int)) (fun _ => true)
      [(⟨"a/x", "1.0.0", [], []⟩, 5)]) "a/x" ≤ 1 ∧
    AtMostOneLatest [(⟨"a/x", "1.0.0", ⟨"a/x", "1.0.0", [], []⟩,
      ⟨"active", 5, true⟩⟩ : StoredServer)] ∧
    ((⟨"a/x", "1.0.0", ⟨"a/x", "1.0.0", [], []⟩,
      ⟨"active", 5, true⟩⟩ : StoredServer).meta.isLatest = true ↔
      (getCurrentLatestVersion [] (⟨"a/x", "1.0.0", [], []⟩ : ServerJSON).name = none ∨
       ∃ cur, getCurrentLatestVersion [] (⟨"a/x", "1.0.0", [], []⟩ : ServerJSON).name =
          some cur ∧ (fun (_ _ : String) (_ _ : Nat) => (1 : Int)) "1.0.0" cur.version 5
            cur.meta.publishedAt > 0)) := by
  obtain ⟨h1, h2, h3, _, _⟩ := c1_latest_flag (fun _ _ _ _ => (1 : Int)) (fun _ => true)
    [(⟨"a/x", "1.0.0", [], []⟩, 5)] "a/x" [] ⟨"a/x", "1.0.0", [], []⟩ 5
    [⟨"a/x", "1.0.0", ⟨"a/x", "1.0.0", [], []⟩, ⟨"active", 5, true⟩⟩]
    ⟨"a/x", "1.0.0", ⟨"a/x", "1.0.0", [], []⟩, ⟨"active", 5, true⟩⟩
    (fun _ => Nat.zero_le 1) rfl
  exact ⟨h1, h2, h3⟩

/-! ### C4: remote-URL uniqueness on publish -/

theorem serversWithRemoteURL_mem (st : RegState) (url : String) (r : StoredServer) :
    r ∈ serversWithRemoteURL st url ↔ r ∈ st ∧ url ∈ r.server.remotes := by
  simp [serversWithRemoteURL, List.mem_filter, List.elem_iff]

theorem findDup_none_iff (st : RegState) (reqName : String) (urls : List String) :
    findDuplicateRemoteURL st reqName urls = none ↔
    ∀ url ∈ urls, ∀ r ∈ st, url ∈ r.server.remotes → r.server.name = reqName := by
  induction urls with
  | nil => simp [findDuplicateRemoteURL]
  | cons u rest ih =>
    simp only [findDuplicateRemoteURL]
    cases hf : (serversWithRemoteURL st u).find? (fun r => r.server.name != reqName) with
    | some r =>
      have hmem := (serversWithRemoteURL_mem st u r).mp (List.mem_of_find?_eq_some hf)
      have hp := List.find?_some hf
      simp only [bne_iff_ne, ne_eq] at hp
      constructor
      · intro hcon
        exact Option.noConfusion hcon
      · intro hall
        exact absurd (hall u (List.mem_cons_self u rest) r hmem.1 hmem.2) hp
    | none =>
      have hnone : ∀ r ∈ st, u ∈ r.server.remotes → r.server.name = reqName := by
        intro r hr hu
        have h2 := List.find?_eq_none.mp hf r ((serversWithRemoteURL_mem st u r).mpr ⟨hr, hu⟩)
        simpa using h2
      rw [ih]
      constructor
      · intro hall url hurl r hr hu
        rcases List.mem_cons.mp hurl with rfl | hurl
        · exact hnone r hr hu
        · exact hall url hurl r hr hu
      · intro hall url hurl r hr hu
        exact hall url (List.mem_cons_of_mem u hurl) r hr hu

theorem findDup_shape (st : RegState) (reqName : String) (urls : List String) :
    findDuplicateRemoteURL st reqName urls = none ∨
    ∃ u other, findDuplicateRemoteURL st reqName urls = some (.duplicateRemoteURL u other) := by
  induction urls with
  | nil => exact Or.inl rfl
  | cons u rest ih =>
    simp only [findDuplicateRemoteURL]
    cases hf : (serversWithRemoteURL st u).find? (fun r => r.server.name != reqName) with
    | some r => exact Or.inr ⟨u, r.server.name, rfl⟩
    | none => exact ih

/-- C4: under a passing structural validation, a publish fails with the
duplicate-remote-URL validation error exactly when some already-stored
version of a different name declares one of the descriptor's remote URLs;
when every stored version declaring those URLs has the descriptor's own
name, the duplicate check passes and (if the version ceiling and the
duplicate-version check also pass) the publish succeeds. -/
theorem c4_remote_url_uniqueness
    (compare : String → String → Nat → Nat → Int) (validateReq : ServerJSON → Bool)
    (st : RegState) (req : ServerJSON) (now : Nat)
    (hv : validateReq req = true) :
    ((∃ u other, createServerInTransaction compare validateReq st req now =
        .error (.duplicateRemoteURL u other)) ↔
      ∃ u ∈ req.remotes, ∃ r ∈ st, u ∈ r.server.remotes ∧ r.server.name ≠ req.name) ∧
    ((∀ u ∈ req.remotes, ∀ r ∈ st, u ∈ r.server.remotes → r.server.name = req.name) →
      countServerVersions st req.name < maxServerVersionsPerServer →
      checkVersionExists st req.name req.version = false →
      ∃ st' row, createServerInTransaction compare validateReq st req now =
        .ok (st', row)) := by
  have hvne : ¬ validateReq req = false := by simp [hv]
  constructor
  · constructor
    · rintro ⟨u, other, herr⟩
      simp only [createServerInTransaction, if_neg hvne] at herr
      cases hf : findDuplicateRemoteURL st req.name req.remotes with
      | none =>
        rw [hf] at herr
        exfalso
        by_cases hcount : countServerVersions st req.name ≥ maxServerVersionsPerServer
        · rw [if_pos hcount] at herr
          injection herr with herr
          exact RegistryError.noConfusion herr
        rw [if_neg hcount] at herr
        cases hex : checkVersionExists st req.name req.version with
        | true =>
          rw [if_pos hex] at herr
          injection herr with herr
          exact RegistryError.noConfusion herr
        | false =>
          rw [if_neg (by simp [hex])] at herr
          exact Except.noConfusion herr
      | some e =>
        rw [hf] at herr
        injection herr with herr
        subst herr
        by_contra hcon
        push_neg at hcon
        have hnone : findDuplicateRemoteURL st req.name req.remotes = none :=
          (findDup_none_iff st req.name req.remotes).mpr
            (fun url hurl r hr hu => hcon url hurl r hr hu)
        rw [hf] at hnone
        exact Option.noConfusion hnone
    · rintro ⟨u, hu, r, hr, hur, hname⟩
      have hne : findDuplicateRemoteURL st req.name req.remotes ≠ none := by
        intro hnone
        exact hname ((findDup_none_iff st req.name req.remotes).mp hnone u hu r hr hur)
      rcases findDup_shape st req.name req.remotes with hnone | ⟨u', other, hsome⟩
      · exact absurd hnone hne
      · refine ⟨u', other, ?_⟩
        simp only [createServerInTransaction, if_neg hvne, hsome]
  · intro hall hcount hex
    have hnone : findDuplicateRemoteURL st req.name req.remotes = none :=
      (findDup_none_iff st req.name req.remotes).mpr hall
    simp only [createServerInTransaction, if_neg hvne, hnone]
    rw [if_neg (by omega), if_neg (by simp [hex])]
    exact ⟨_, _, rfl⟩

/-- C4 witness: with "a/x" version 1.0.0 already claiming the remote URL,
publishing "a/y" with the same URL fails with the duplicate-URL validation
error, while republishing a new version of "a/x" itself passes the
duplicate check and succeeds. -/
theorem c4_witness :
    (∃ u other, createServerInTransaction (fun _ _ _ _ => (1 : Int)) (fun _ => true)
      [⟨"a/x", "1.0.0", ⟨"a/x", "1.0.0", ["https://r.example/mcp"], []⟩,
        ⟨"active", 5, true⟩⟩]
      ⟨"a/y", "1.0.0", ["https://r.example/mcp"], []⟩ 6 =
      .error (.duplicateRemoteURL u other)) ∧
    (∃ st' row, createServerInTransaction (fun _ _ _ _ => (1 : Int)) (fun _ => true)
      [⟨"a/x", "1.0.0", ⟨"a/x", "1.0.0", ["https://r.example/mcp"], []⟩,
        ⟨"active", 5, true⟩⟩]
      ⟨"a/x", "1.1.0", ["https://r.example/mcp"], []⟩ 6 = .ok (st', row)) := by
  constructor
  · exact (c4_remote_url_uniqueness (fun _ _ _ _ => (1 : Int)) (fun _ => true)
      [⟨"a/x", "1.0.0", ⟨"a/x", "1.0.0", ["https://r.example/mcp"], []⟩,
        ⟨"active", 5, true⟩⟩]
      ⟨"a/y", "1.0.0", ["https://r.example/mcp"], []⟩ 6 rfl).1.mpr
      ⟨"https://r.example/mcp", by decide,
        ⟨"a/x", "1.0.0", ⟨"a/x", "1.0.0", ["https://r.example/mcp"], []⟩,
          ⟨"active", 5, true⟩⟩, by decide, by decide, by decide⟩
  · exact (c4_remote_url_uniqueness (fun _ _ _ _ => (1 : Int)) (fun _ => true)
      [⟨"a/x", "1.0.0", ⟨"a/x", "1.0.0", ["https://r.example/mcp"], []⟩,
        ⟨"active", 5, true⟩⟩]
      ⟨"a/x", "1.1.0", ["https://r.example/mcp"], []⟩ 6 rfl).2
      (by
        intro u hu r hr hur
        simp only [List.mem_singleton] at hu hr
        subst hu
        subst hr
        rfl)
      (by decide) (by decide)

/-! ### C5: registry-validation skipping on update -/

theorem find_key_map (st : RegState) (n v : String) (f : StoredServer → StoredServer)
    (hf : ∀ r, (f r).name = r.name ∧ (f r).version = r.version) :
    (st.map f).find? (fun r => r.name == n && r.version == v) =
      (st.find? (fun r => r.name == n && r.version == v)).map f := by
  rw [List.find?_map]
  have hp : ((fun r => r.name == n && r.version == v) ∘ f) =
      (fun r => r.name == n && r.version == v) := by
    funext r
    simp [Function.comp, (hf r).1, (hf r).2]
  rw [hp]

theorem getServer_dbUpdate (st : RegState) (n v : String) (req : ServerJSON) :
    getServerByNameAndVersion (dbUpdateServer st n v req) n v =
      (getServerByNameAndVersion st n v).map
        (fun r => if r.name == n && r.version == v then { r with server := req } else r) := by
  unfold getServerByNameAndVersion dbUpdateServer
  exact find_key_map st n v _ (fun r => by split <;> exact ⟨rfl, rfl⟩)

theorem getServer_setStatus (st : RegState) (n v s : String) :
    getServerByNameAndVersion (setServerStatus st n v s) n v =
      (getServerByNameAndVersion st n v).map
        (fun r => if r.name == n && r.version == v then
          { r with meta := { r.meta with status := s } } else r) := by
  unfold getServerByNameAndVersion setServerStatus
  exact find_key_map st n v _ (fun r => by split <;> exact ⟨rfl, rfl⟩)

theorem validateUpdate_flags (cfgE : Bool) (sOK : ServerJSON → Bool)
    (pOK : String → Bool) (req : ServerJSON) (skip : Bool) :
    (validateUpdateRequest cfgE sOK pOK req skip).2.1 = true ∧
    ((validateUpdateRequest cfgE sOK pOK req skip).2.2 = true ↔
      (sOK req = true ∧ skip = false ∧ cfgE = true)) := by
  unfold validateUpdateRequest
  split_ifs with h1 h2 h3
  · simp [h1]
  · constructor
    · rfl
    · simp only [Bool.or_eq_true, Bool.not_eq_eq_eq_not, Bool.not_true] at h2
      constructor
      · intro hf
        exact absurd hf (by simp)
      · rintro ⟨_, hskip, hcfg⟩
        rcases h2 with h2 | h2
        · rw [hskip] at h2
          exact absurd h2 (by simp)
        · rw [hcfg] at h2
          exact absurd h2 (by simp)
  · refine ⟨rfl, ?_⟩
    simp only [Bool.or_eq_true, not_or, Bool.not_eq_eq_eq_not, Bool.not_true] at h2
    simp only [Bool.not_eq_false] at h1
    constructor
    · intro _
      exact ⟨h1, by simpa using h2.1, by simpa using h2.2⟩
    · intro _
      rfl
  · refine ⟨rfl, ?_⟩
    simp only [Bool.or_eq_true, not_or, Bool.not_eq_eq_eq_not, Bool.not_true] at h2
    simp only [Bool.not_eq_false] at h1
    constructor
    · intro _
      exact ⟨h1, by simpa using h2.1, by simpa using h2.2⟩
    · intro _
      rfl

theorem update_outcome_flags (cfgE : Bool) (sOK : ServerJSON → Bool)
    (pOK : String → Bool) (st : RegState) (name version : String) (req : ServerJSON)
    (newStatus : Option String) (current : StoredServer)
    (hcur : getServerByNameAndVersion st name version = some current) :
    (updateServerInTransaction cfgE sOK pOK st name version req newStatus).structuralRan =
      (validateUpdateRequest cfgE sOK pOK req
        ((current.meta.status == "deleted") || (newStatus == some "deleted"))).2.1 ∧
    (updateServerInTransaction cfgE sOK pOK st name version req newStatus).registryRan =
      (validateUpdateRequest cfgE sOK pOK req
        ((current.meta.status == "deleted") || (newStatus == some "deleted"))).2.2 := by
  simp only [updateServerInTransaction, hcur]
  cases hval : validateUpdateRequest cfgE sOK pOK req
      ((current.meta.status == "deleted") || (newStatus == some "deleted")) with
  | mk oe rest =>
    obtain ⟨sr, rr⟩ := rest
    cases oe with
    | some e => exact ⟨rfl, rfl⟩
    | none =>
      cases findDuplicateRemoteURL st req.name req.remotes with
      | some e => exact ⟨rfl, rfl⟩
      | none =>
        cases newStatus with
        | some s => exact ⟨rfl, rfl⟩
        | none => exact ⟨rfl, rfl⟩

theorem validateUpdate_skip_true (cfgE : Bool) (sOK : ServerJSON → Bool)
    (pOK : String → Bool) (req : ServerJSON) :
    validateUpdateRequest cfgE sOK pOK req true =
      (if sOK req = false then (some .validationFailed, true, false)
       else (none, true, false)) := by
  unfold validateUpdateRequest
  split_ifs with h1 h2 h3
  · rfl
  · rfl
  · exact absurd (by simp : (true || !cfgE) = true) h2
  · exact absurd (by simp : (true || !cfgE) = true) h2

theorem getServer_after_delete_update (st : RegState) (name version : String)
    (req : ServerJSON) (current : StoredServer)
    (hcur : getServerByNameAndVersion st name version = some current) :
    getServerByNameAndVersion
      (setServerStatus (dbUpdateServer st name version req) name version "deleted")
      name version =
      some ⟨current.name, current.version, req,
        ⟨"deleted", current.meta.publishedAt, current.meta.isLatest⟩⟩ := by
  have hcur2 : List.find? (fun r => r.name == name && r.version == version) st =
      some current := hcur
  have hp : (current.name == name && current.version == version) = true := by
    have h2 := List.find?_some hcur2
    simpa using h2
  have hn : current.name = name := by
    have h3 := hp
    simp only [Bool.and_eq_true, beq_iff_eq] at h3
    exact h3.1
  have hver : current.version = version := by
    have h3 := hp
    simp only [Bool.and_eq_true, beq_iff_eq] at h3
    exact h3.2
  rw [getServer_setStatus, getServer_dbUpdate, hcur]
  simp [hn, hver]

/-- C5: an update always runs structural validation (once the row is found);
it performs registry validation exactly when structural validation passes,
the stored row is not deleted, the new status is not deleted, and registry
validation is enabled by configuration; and after an update that sets the
status to deleted, every subsequent update of that version skips registry
validation, its outcome does not depend on the package validator at all, and
it succeeds whenever structural validation and the duplicate-URL check
pass. -/
theorem c5_update_validation
    (cfgEnable : Bool) (structuralOK : ServerJSON → Bool) (packageOK : String → Bool)
    (st : RegState) (name version : String) (req : ServerJSON) (newStatus : Option String)
    (current : StoredServer)
    (hcur : getServerByNameAndVersion st name version = some current) :
    (updateServerInTransaction cfgEnable structuralOK packageOK st name version req
      newStatus).structuralRan = true ∧
    ((updateServerInTransaction cfgEnable structuralOK packageOK st name version req
        newStatus).registryRan = true ↔
      (structuralOK req = true ∧ current.meta.status ≠ "deleted" ∧
       newStatus ≠ some "deleted" ∧ cfgEnable = true)) ∧
    (structuralOK req = true →
      findDuplicateRemoteURL st req.name req.remotes = none →
      (updateServerInTransaction cfgEnable structuralOK packageOK st name version req
        (some "deleted")).result =
        .ok (setServerStatus (dbUpdateServer st name version req) name version "deleted") ∧
      ∀ req2 newStatus2 pOK2 pOK3,
        (updateServerInTransaction cfgEnable structuralOK pOK2
          (setServerStatus (dbUpdateServer st name version req) name version "deleted")
          name version req2 newStatus2).registryRan = false ∧
        updateServerInTransaction cfgEnable structuralOK pOK2
          (setServerStatus (dbUpdateServer st name version req) name version "deleted")
          name version req2 newStatus2 =
        updateServerInTransaction cfgEnable structuralOK pOK3
          (setServerStatus (dbUpdateServer st name version req) name version "deleted")
          name version req2 newStatus2 ∧
        (structuralOK req2 = true →
          findDuplicateRemoteURL
            (setServerStatus (dbUpdateServer st name version req) name version "deleted")
            req2.name req2.remotes = none →
          ∃ st2, (updateServerInTransaction cfgEnable structuralOK pOK2
            (setServerStatus (dbUpdateServer st name version req) name version "deleted")
            name version req2 newStatus2).result = .ok st2)) := by
  obtain ⟨hsr, hrr⟩ := update_outcome_flags cfgEnable structuralOK packageOK st name version
    req newStatus current hcur
  obtain ⟨hv1, hv2⟩ := validateUpdate_flags cfgEnable structuralOK packageOK req
    ((current.meta.status == "deleted") || (newStatus == some "deleted"))
  refine ⟨by rw [hsr]; exact hv1, ?_, ?_⟩
  · rw [hrr, hv2]
    simp only [Bool.or_eq_false_iff, beq_eq_false_iff_ne, ne_eq]
    tauto
  · intro hs hdup
    have hdel : (updateServerInTransaction cfgEnable structuralOK packageOK st name version
        req (some "deleted")).result =
        .ok (setServerStatus (dbUpdateServer st name version req) name version "deleted") := by
      simp only [updateServerInTransaction, hcur]
      have hskip : ((current.meta.status == "deleted") ||
          ((some "deleted" : Option String) == some "deleted")) = true := by
        simp
      rw [hskip, validateUpdate_skip_true, if_neg (by simp [hs]), hdup]
    refine ⟨hdel, ?_⟩
    intro req2 newStatus2 pOK2 pOK3
    have hfind := getServer_after_delete_update st name version req current hcur
    have hskip2 : ∀ ns2 : Option String,
        (((⟨current.name, current.version, req,
          ⟨"deleted", current.meta.publishedAt, current.meta.isLatest⟩⟩ :
            StoredServer).meta.status == "deleted") || (ns2 == some "deleted")) = true := by
      intro ns2
      simp
    refine ⟨?_, ?_, ?_⟩
    · obtain ⟨_, hrr2⟩ := update_outcome_flags cfgEnable structuralOK pOK2 _ name version
        req2 newStatus2 _ hfind
      obtain ⟨_, hv2b⟩ := validateUpdate_flags cfgEnable structuralOK pOK2 req2
        (((⟨current.name, current.version, req,
          ⟨"deleted", current.meta.publishedAt, current.meta.isLatest⟩⟩ :
            StoredServer).meta.status == "deleted") || (newStatus2 == some "deleted"))
      rcases Bool.eq_false_or_eq_true ((updateServerInTransaction cfgEnable structuralOK pOK2
          (setServerStatus (dbUpdateServer st name version req) name version "deleted")
          name version req2 newStatus2).registryRan) with hb | hb
      · exfalso
        rw [hrr2] at hb
        obtain ⟨_, hskipf, _⟩ := hv2b.mp hb
        rw [hskip2 newStatus2] at hskipf
        exact Bool.noConfusion hskipf
      · exact hb
    · simp only [updateServerInTransaction, hfind]
      rw [hskip2 newStatus2, validateUpdate_skip_true, validateUpdate_skip_true]
    · intro hs2 hdup2
      simp only [updateServerInTransaction, hfind]
      rw [hskip2 newStatus2, validateUpdate_skip_true, if_neg (by simp [hs2]), hdup2]
      cases newStatus2 with
      | some s2 => exact ⟨_, rfl⟩
      | none => exact ⟨_, rfl⟩

/-- C5 witness: with a failing package validator, updating "a/x" 1.0.0 to
status deleted succeeds, and the subsequent update of the now-deleted row
skips registry validation and succeeds even though the package validator
rejects everything. -/
theorem c5_witness :
    (updateServerInTransaction true (fun _ => true) (fun _ => false)
      [⟨"a/x", "1.0.0", ⟨"a/x", "1.0.0", [], []⟩, ⟨"active", 5, true⟩⟩]
      "a/x" "1.0.0" ⟨"a/x", "1.0.0", [], []⟩ (some "deleted")).result =
      .ok (setServerStatus (dbUpdateServer
        [⟨"a/x", "1.0.0", ⟨"a/x", "1.0.0", [], []⟩, ⟨"active", 5, true⟩⟩]
        "a/x" "1.0.0" ⟨"a/x", "1.0.0", [], []⟩) "a/x" "1.0.0" "deleted") ∧
    (updateServerInTransaction true (fun _ => true) (fun _ => false)
      (setServerStatus (dbUpdateServer
        [⟨"a/x", "1.0.0", ⟨"a/x", "1.0.0", [], []⟩, ⟨"active", 5, true⟩⟩]
        "a/x" "1.0.0" ⟨"a/x", "1.0.0", [], []⟩) "a/x" "1.0.0" "deleted")
      "a/x" "1.0.0" ⟨"a/x", "1.0.0", [], []⟩ none).registryRan = false ∧
    ∃ st2, (updateServerInTransaction true (fun _ => true) (fun _ => false)
      (setServerStatus (dbUpdateServer
        [⟨"a/x", "1.0.0", ⟨"a/x", "1.0.0", [], []⟩, ⟨"active", 5, true⟩⟩]
        "a/x" "1.0.0" ⟨"a/x", "1.0.0", [], []⟩) "a/x" "1.0.0" "deleted")
      "a/x" "1.0.0" ⟨"a/x", "1.0.0", [], []⟩ none).result = .ok st2 := by
  obtain ⟨-, -, h3⟩ := c5_update_validation true (fun _ => true) (fun _ => false)
    [⟨"a/x", "1.0.0", ⟨"a/x", "1.0.0", [], []⟩, ⟨"active", 5, true⟩⟩]
    "a/x" "1.0.0" ⟨"a/x", "1.0.0", [], []⟩ (some "deleted")
    ⟨"a/x", "1.0.0", ⟨"a/x", "1.0.0", [], []⟩, ⟨"active", 5, true⟩⟩ rfl
  obtain ⟨hdel, h5⟩ := h3 rfl rfl
  obtain ⟨h6, -, h8⟩ := h5 ⟨"a/x", "1.0.0", [], []⟩ none (fun _ => false) (fun _ => true)
  exact ⟨hdel, h6, h8 rfl rfl⟩

/-! ### C7: paginated registry fetch -/

theorem fetchLoop_chain (fetch : Nat → String → Option RegistryPage) :
    ∀ (pages : List RegistryPage) (cursor : String) (fuel : Nat),
      PageChain fetch cursor pages → pages.length ≤ fuel →
      fetchAllServersLoop fetch fuel cursor =
        some ((pages.map (fun p => p.servers.filter isActiveEntry)).flatten,
              (chainCursors cursor pages).map (fun c => (pageLimit, c))) := by
  intro pages
  induction pages with
  | nil => intro cursor fuel hchain _; cases hchain
  | cons p ps ih =>
    intro cursor fuel hchain hfuel
    cases fuel with
    | zero => simp at hfuel
    | succ m =>
      cases hchain with
      | last hf hnext =>
        simp [fetchAllServersLoop, hf, hnext, chainCursors]
      | cons hf hnext hrest =>
        simp only [fetchAllServersLoop, hf]
        rw [if_neg hnext]
        rw [ih p.metadata.nextCursor m hrest (by simpa using hfuel)]
        simp [chainCursors]

/-- C7: over any terminating cursor chain served by the registry, the fetch
loop issues one request per page, every request with the page limit 100,
starting at the empty cursor and following each page's nextCursor exactly
while it is non-empty; and it collects precisely the entries whose status is
empty or "active", in page order, skipping all others. -/
theorem c7_fetch_pagination (fetch : Nat → String → Option RegistryPage)
    (pages : List RegistryPage) (fuel : Nat)
    (hchain : PageChain fetch "" pages) (hfuel : pages.length ≤ fuel) :
    fetchAllServers fetch fuel =
      some ((pages.map (fun p => p.servers.filter isActiveEntry)).flatten,
            (chainCursors "" pages).map (fun c => (pageLimit, c))) ∧
    pageLimit = 100 := by
  exact ⟨fetchLoop_chain fetch pages "" fuel hchain hfuel, rfl⟩

/-- C7 witness: a registry serving two pages ("" then cursor "p2"), the
first holding one active and one deprecated entry and the second one entry
with empty status, yields exactly the two active entries and the request
trace [(100, ""), (100, "p2")]. -/
theorem c7_witness :
    fetchAllServers
      (fun _ c =>
        if c = "" then
          some ⟨[⟨"com.source/server-1", "1.0.0", "active"⟩,
                 ⟨"com.source/old", "1.0.0", "deprecated"⟩], ⟨2, "p2"⟩⟩
        else if c = "p2" then
          some ⟨[⟨"com.source/server-2", "1.0.0", ""⟩], ⟨1, ""⟩⟩
        else none) 2 =
      some ([⟨"com.source/server-1", "1.0.0", "active"⟩,
             ⟨"com.source/server-2", "1.0.0", ""⟩],
            [(pageLimit, ""), (pageLimit, "p2")]) := by
  have h := c7_fetch_pagination
    (fun _ c =>
      if c = "" then
        some ⟨[⟨"com.source/server-1", "1.0.0", "active"⟩,
               ⟨"com.source/old", "1.0.0", "deprecated"⟩], ⟨2, "p2"⟩⟩
      else if c = "p2" then
        some ⟨[⟨"com.source/server-2", "1.0.0", ""⟩], ⟨1, ""⟩⟩
      else none)
    [⟨[⟨"com.source/server-1", "1.0.0", "active"⟩,
       ⟨"com.source/old", "1.0.0", "deprecated"⟩], ⟨2, "p2"⟩⟩,
     ⟨[⟨"com.source/server-2", "1.0.0", ""⟩], ⟨1, ""⟩⟩] 2
    (PageChain.cons rfl (by decide) (PageChain.last rfl rfl)) (by decide)
  rw [h.1]
  rfl

/-! ### C8: README encode / decode -/

theorem hexVal_hexDigit : ∀ n < 16, hexCharVal (hexDigitChar n) = some n := by decide

theorem hexDecode_hexEncode (bs : List Nat) (h : ∀ x ∈ bs, x < 256) :
    hexDecodeChars (hexEncodeChars bs) = some bs := by
  induction bs with
  | nil => rfl
  | cons b rest ih =>
    have hb : b < 256 := h b (by simp)
    have h1 := hexVal_hexDigit (b / 16) (by omega)
    have h2 := hexVal_hexDigit (b % 16) (by omega)
    have ih2 := ih (fun x hx => h x (by simp [hx]))
    simp only [hexEncodeChars, hexDecodeChars, h1, h2, ih2, Option.some.injEq,
      List.cons.injEq, and_true]
    omega

theorem b64Val_b64Char : ∀ n < 64, b64Val (b64Char n) = some n := by decide

theorem b64Char_ne_pad : ∀ n < 64, ¬ b64Char n = '=' := by decide

theorem b64DecodeChars_b64EncodeChars :
    ∀ bs : List Nat, (∀ x ∈ bs, x < 256) →
      b64DecodeChars (b64EncodeChars bs) = some bs := by
  intro bs
  induction bs using b64EncodeChars.induct with
  | case1 => intro _; rfl
  | case2 a =>
    intro h
    have ha : a < 256 := h a (by simp)
    have h1 := b64Val_b64Char (a / 4) (by omega)
    have h2 := b64Val_b64Char (a % 4 * 16) (by omega)
    simp only [b64EncodeChars, b64DecodeChars, h1, h2]
    simp only [and_self, if_true, Option.some.injEq, List.cons.injEq, and_true]
    omega
  | case3 a b =>
    intro h
    have ha : a < 256 := h a (by simp)
    have hb : b < 256 := h b (by simp)
    have h1 := b64Val_b64Char (a / 4) (by omega)
    have h2 := b64Val_b64Char (a % 4 * 16 + b / 16) (by omega)
    have h3 := b64Val_b64Char (b % 16 * 4) (by omega)
    have hne3 := b64Char_ne_pad (b % 16 * 4) (by omega)
    simp only [b64EncodeChars, b64DecodeChars, h1, h2]
    rw [if_neg hne3]
    simp only [h3]
    simp only [if_true, Option.some.injEq, List.cons.injEq, and_true]
    omega
  | case4 a b c rest ih =>
    intro h
    have ha : a < 256 := h a (by simp)
    have hb : b < 256 := h b (by simp)
    have hc : c < 256 := h c (by simp)
    have hrest : ∀ x ∈ rest, x < 256 := fun x hx => h x (by simp [hx])
    have h1 := b64Val_b64Char (a / 4) (by omega)
    have h2 := b64Val_b64Char (a % 4 * 16 + b / 16) (by omega)
    have h3 := b64Val_b64Char (b % 16 * 4 + c / 64) (by omega)
    have h4 := b64Val_b64Char (c % 64) (by omega)
    have hne3 := b64Char_ne_pad (b % 16 * 4 + c / 64) (by omega)
    have hne4 := b64Char_ne_pad (c % 64) (by omega)
    have ih2 := ih hrest
    simp only [b64EncodeChars, b64DecodeChars, h1, h2]
    rw [if_neg hne3]
    simp only [h3]
    rw [if_neg hne4]
    simp only [h4, ih2, Option.some.injEq, List.cons.injEq, and_true]
    omega

theorem b64EncodeChars_ne_nil (bs : List Nat) (h : bs ≠ []) :
    b64EncodeChars bs ≠ [] := by
  match bs with
  | [] => exact absurd rfl h
  | [a] => simp [b64EncodeChars]
  | [a, b] => simp [b64EncodeChars]
  | a :: b :: c :: rest => simp [b64EncodeChars]

theorem wordToBytes_lt (w : Nat) : ∀ x ∈ wordToBytes w, x < 256 := by
  intro x hx
  simp only [wordToBytes, List.mem_cons, List.not_mem_nil, or_false] at hx
  rcases hx with rfl | rfl | rfl | rfl <;> omega

theorem sha256Bytes_lt (msg : List Nat) : ∀ x ∈ sha256Bytes msg, x < 256 := by
  intro x hx
  simp only [sha256Bytes, List.mem_append] at hx
  rcases hx with ((((((hx | hx) | hx) | hx) | hx) | hx) | hx) | hx <;>
    exact wordToBytes_lt _ x hx

theorem sha256Bytes_ne_nil (msg : List Nat) : sha256Bytes msg ≠ [] := by
  simp [sha256Bytes, wordToBytes]

theorem mk_toList (l : List Char) : (String.mk l).toList = l := rfl

theorem string_mk_ne_empty (l : List Char) (h : l ≠ []) : String.mk l ≠ "" := by
  intro hcon
  have h2 := congrArg String.data hcon
  simp only at h2
  exact h (by simpa using h2)

theorem hexEncode_ne_empty (bs : List Nat) (h : bs ≠ []) : hexEncode bs ≠ "" := by
  apply string_mk_ne_empty
  match bs with
  | [] => exact absurd rfl h
  | b :: rest => simp [hexEncodeChars]

theorem decode_encode_nonempty (content : List Nat) (ct : String)
    (hbytes : ∀ x ∈ content, x < 256) (hne : content ≠ []) :
    ReadmeEntry.Decode ⟨b64EncodeString content, ct, (content.length : Int),
      hexEncode (sha256Bytes content)⟩ = .ok (content, ct) := by
  have hcne : b64EncodeString content ≠ "" :=
    string_mk_ne_empty _ (b64EncodeChars_ne_nil content hne)
  have hdec : b64DecodeString (b64EncodeString content) = some content := by
    show b64DecodeChars (String.mk (b64EncodeChars content)).toList = some content
    rw [mk_toList]
    exact b64DecodeChars_b64EncodeChars content hbytes
  have hsne : hexEncode (sha256Bytes content) ≠ "" :=
    hexEncode_ne_empty _ (sha256Bytes_ne_nil content)
  have hhex : hexDecode (hexEncode (sha256Bytes content)) = some (sha256Bytes content) := by
    show hexDecodeChars (String.mk (hexEncodeChars (sha256Bytes content))).toList = _
    rw [mk_toList]
    exact hexDecode_hexEncode _ (sha256Bytes_lt content)
  simp only [ReadmeEntry.Decode]
  rw [if_neg hcne]
  simp only [hdec]
  rw [if_neg (by simp)]
  rw [if_pos hsne]
  simp only [hhex, if_true]

/-- C8 (amended): decoding the entry produced by encoding returns exactly
the original bytes and content type without error; and decoding a stored
entry whose content is non-empty and whose stored digest is non-empty fails
with an error whenever the sha256 of the base64-decoded bytes differs from
the hex-decoded stored digest.  (An entry with empty content short-circuits
past the digest check, which is what the counterexample exhibits.) -/
theorem c8_readme_roundtrip_and_digest
    (content : List Nat) (ct : String) (hbytes : ∀ x ∈ content, x < 256)
    (e : ReadmeEntry) (bs : List Nat)
    (hc : e.content ≠ "") (hsha : e.sha256 ≠ "")
    (hdec : b64DecodeString e.content = some bs)
    (hmm : ∀ expected, hexDecode e.sha256 = some expected → expected ≠ sha256Bytes bs) :
    (EncodeReadme content ct).Decode = .ok (content, ct) ∧
    ∃ msg, e.Decode = .error msg := by
  constructor
  · cases content with
    | nil => rfl
    | cons b rest =>
      have hlen : ¬ ((b :: rest : List Nat).length = 0) := by simp
      simp only [EncodeReadme, if_neg hlen]
      exact decode_encode_nonempty (b :: rest) ct hbytes (by simp)
  · simp only [ReadmeEntry.Decode]
    rw [if_neg hc]
    simp only [hdec]
    by_cases hsize : 0 < e.sizeBytes ∧ (bs.length : Int) ≠ e.sizeBytes
    · rw [if_pos hsize]
      exact ⟨_, rfl⟩
    · rw [if_neg hsize]
      rw [if_pos hsha]
      cases hhex : hexDecode e.sha256 with
      | none => exact ⟨_, rfl⟩
      | some expected =>
        have hne2 := hmm expected hhex
        exact ⟨"README sha256 mismatch", by simp [hne2]⟩

set_option maxRecDepth 10000 in
/-- C8 counterexample: a stored entry with empty content, the markdown
content type, size zero and an all-zero 64-digit stored digest decodes
without error, even though the sha256 of its base64-decoded bytes (the empty
sequence) differs from the stored digest; the claim's unconditional
digest-mismatch failure is therefore false. -/
theorem c8_counterexample :
    ReadmeEntry.Decode ⟨"", "text/markdown", 0,
      "0000000000000000000000000000000000000000000000000000000000000000"⟩ =
      .ok ([], "text/markdown") ∧
    b64DecodeString "" = some [] ∧
    hexDecode "0000000000000000000000000000000000000000000000000000000000000000" =
      some (List.replicate 32 0) ∧
    sha256Bytes [] ≠ List.replicate 32 0 := by
  refine ⟨rfl, rfl, by decide, by decide⟩

set_option maxRecDepth 10000 in
/-- C8 witness: the bytes "hi" round-trip through encode and decode, and the
concrete entry holding base64 "YQ==" (the byte 0x61) with the stored digest
"00" fails to decode, since sha256 of 0x61 is not 0x00. -/
theorem c8_witness :
    (EncodeReadme [104, 105] "text/markdown").Decode = .ok ([104, 105], "text/markdown") ∧
    ∃ msg, ReadmeEntry.Decode ⟨"YQ==", "text/markdown", 1, "00"⟩ = .error msg :=
  c8_readme_roundtrip_and_digest [104, 105] "text/markdown" (by decide)
    ⟨"YQ==", "text/markdown", 1, "00"⟩ [97] (by decide) (by decide) rfl
    (fun exp hexp => by
      have h0 : hexDecode "00" = some [0] := rfl
      rw [h0] at hexp
      injection hexp with hexp
      subst hexp
      decide)
